import Mathlib

/-!
Verification of the playbook execution and result-extraction pipeline of the
terraform-provider-ansible repository, against its natural-language specification.

The development shallowly embeds the Go sources:
  * internal/provider/results_parser.go  (report model, MsgType.UnmarshalJSON, AnalyzeJSON)
  * internal/provider/utils.go           (jsonPath, ArtifactQuery, QueryPlaybookArtifact)
  * internal/provider/playbook.go        (Execute: diagnostics produced after a run)
  * provider/resource_playbook2.go       (argument builder of resourcePlaybook2Create)
  * providerutils (CreateVerboseSwitch)

The behaviour of Go's encoding/json library (an external dependency) is modelled by an
executable JSON value type `JVal`, a renderer `renderV` and a parser `parseV`/`jsonParse`
(integer numerals only, exact-case field matching; both restrictions are irrelevant to
the claims), together with per-type decode functions that mirror encoding/json's rules:
absent fields and JSON null leave the zero value, type mismatches are decode errors,
unknown fields are ignored.  The k8s.io/client-go/util/jsonpath engine (also an external
dependency, not part of this repository) is modelled from the spec, see `jpParse`.
-/

namespace TPA

/-- JSON values, the model of Go's `interface{}` decoding target for encoding/json.
Numbers are restricted to integer numerals. -/
inductive JVal where
  | null
  | bool (b : Bool)
  | num (n : Int)
  | str (s : String)
  | arr (elems : List JVal)
  | obj (fields : List (String × JVal))

/-- Decimal digit to its character. -/
def digitChar (d : Nat) : Char := Char.ofNat (48 + d)

/-- Big-endian decimal digits of `n`, with `fuel` bounding the recursion depth
(`n ≤ fuel` suffices). -/
def natChars : Nat → Nat → List Char
  | 0, _ => []
  | _ + 1, 0 => []
  | fuel + 1, n => natChars fuel (n / 10) ++ [digitChar (n % 10)]

/-- Decimal rendering of a natural number. -/
def renderNat (n : Nat) : List Char :=
  if n = 0 then ['0'] else natChars n n

/-- Decimal rendering of an integer. -/
def renderInt (n : Int) : List Char :=
  if n < 0 then '-' :: renderNat n.natAbs else renderNat n.toNat

/-- JSON string escaping of one character (quote, backslash and the common control
characters; other characters are passed through verbatim). -/
def escapeChar (c : Char) : List Char :=
  if c = '"' then ['\\', '"']
  else if c = '\\' then ['\\', '\\']
  else if c = '\n' then ['\\', 'n']
  else if c = '\t' then ['\\', 't']
  else if c = '\r' then ['\\', 'r']
  else [c]

/-- JSON string escaping. -/
def escapeStr (s : List Char) : List Char := s.flatMap escapeChar

mutual

/-- Rendering of a JSON value to its textual encoding (the model of the byte encoding
that Go's encoding/json produces and consumes). -/
def renderV : JVal → List Char
  | .null => "null".data
  | .bool true => "true".data
  | .bool false => "false".data
  | .num n => renderInt n
  | .str s => '"' :: (escapeStr s.data ++ ['"'])
  | .arr xs => '[' :: (renderElems xs ++ [']'])
  | .obj kvs => '\x7b' :: (renderMembers kvs ++ ['\x7d'])

/-- Rendering of array elements, comma separated. -/
def renderElems : List JVal → List Char
  | [] => []
  | [x] => renderV x
  | x :: y :: xs => renderV x ++ ',' :: renderElems (y :: xs)

/-- Rendering of object members, comma separated. -/
def renderMembers : List (String × JVal) → List Char
  | [] => []
  | [kv] => ('"' :: (escapeStr kv.1.data ++ ['"', ':'])) ++ renderV kv.2
  | kv :: m :: kvs =>
      (('"' :: (escapeStr kv.1.data ++ ['"', ':'])) ++ renderV kv.2) ++ ',' :: renderMembers (m :: kvs)

end

/-- Textual encoding of a JSON value as a `String`. -/
def JVal.render (v : JVal) : String := ⟨renderV v⟩

/-- Whitespace recognizer of the JSON lexer. -/
def isWs (c : Char) : Bool := c = ' ' || c = '\n' || c = '\t' || c = '\r'

/-- Digit recognizer of the JSON lexer. -/
def isDigitC (c : Char) : Bool := 48 ≤ c.toNat && c.toNat ≤ 57

/-- Skip leading whitespace. -/
def skipWs : List Char → List Char
  | [] => []
  | c :: cs => if isWs c then skipWs cs else c :: cs

/-- Split a leading run of digits from the input. -/
def takeDigits : List Char → List Char × List Char
  | [] => ([], [])
  | c :: cs =>
      if isDigitC c then
        let p := takeDigits cs
        (c :: p.1, p.2)
      else ([], c :: cs)

/-- Numeric value of a big-endian digit string. -/
def digitsVal (ds : List Char) : Nat :=
  ds.foldl (fun a c => a * 10 + (c.toNat - 48)) 0

/-- Unescape one escaped character of a JSON string literal. -/
def unescapeChar (c : Char) : Option Char :=
  if c = '"' then some '"'
  else if c = '\\' then some '\\'
  else if c = 'n' then some '\n'
  else if c = 't' then some '\t'
  else if c = 'r' then some '\r'
  else none

/-- Parse the body of a JSON string literal (after the opening quote), returning the
decoded characters and the remaining input after the closing quote. -/
def parseStrChars : List Char → Option (List Char × List Char)
  | [] => none
  | c :: rest =>
    if c = '"' then some ([], rest)
    else if c = '\\' then
      match rest with
      | [] => none
      | e :: rest' =>
        match unescapeChar e with
        | some d => (parseStrChars rest').map fun p => (d :: p.1, p.2)
        | none => none
    else (parseStrChars rest).map fun p => (c :: p.1, p.2)

mutual

/-- Parse one JSON value (fuel-bounded recursive descent). -/
def parseV : Nat → List Char → Option (JVal × List Char)
  | 0, _ => none
  | fuel + 1, cs =>
    match skipWs cs with
    | [] => none
    | c :: cs' =>
      if c = '\x7b' then
        match skipWs cs' with
        | [] => none
        | d :: ds =>
          if d = '\x7d' then some (.obj [], ds)
          else (parseMembers fuel (d :: ds)).map fun p => (.obj p.1, p.2)
      else if c = '[' then
        match skipWs cs' with
        | [] => none
        | d :: ds =>
          if d = ']' then some (.arr [], ds)
          else (parseElems fuel (d :: ds)).map fun p => (.arr p.1, p.2)
      else if c = '"' then
        (parseStrChars cs').map fun p => (.str ⟨p.1⟩, p.2)
      else if c = 'n' then
        match cs' with
        | 'u' :: 'l' :: 'l' :: rest => some (.null, rest)
        | _ => none
      else if c = 't' then
        match cs' with
        | 'r' :: 'u' :: 'e' :: rest => some (.bool true, rest)
        | _ => none
      else if c = 'f' then
        match cs' with
        | 'a' :: 'l' :: 's' :: 'e' :: rest => some (.bool false, rest)
        | _ => none
      else if c = '-' then
        let p := takeDigits cs'
        if p.1 = [] then none else some (.num (-(digitsVal p.1 : Int)), p.2)
      else if isDigitC c then
        let p := takeDigits (c :: cs')
        some (.num (digitsVal p.1 : Int), p.2)
      else none

/-- Parse the elements of a non-empty JSON array, consuming the closing bracket. -/
def parseElems : Nat → List Char → Option (List JVal × List Char)
  | 0, _ => none
  | fuel + 1, cs =>
    match parseV fuel cs with
    | none => none
    | some (v, rest) =>
      match skipWs rest with
      | ',' :: rest' => (parseElems fuel rest').map fun p => (v :: p.1, p.2)
      | ']' :: rest' => some ([v], rest')
      | _ => none

/-- Parse the members of a non-empty JSON object, consuming the closing brace. -/
def parseMembers : Nat → List Char → Option (List (String × JVal) × List Char)
  | 0, _ => none
  | fuel + 1, cs =>
    match skipWs cs with
    | '"' :: cs' =>
      match parseStrChars cs' with
      | none => none
      | some (k, rest) =>
        match skipWs rest with
        | ':' :: rest' =>
          match parseV fuel rest' with
          | none => none
          | some (v, rest'') =>
            match skipWs rest'' with
            | ',' :: r3 => (parseMembers fuel r3).map fun p => ((⟨k⟩, v) :: p.1, p.2)
            | '\x7d' :: r3 => some ([(⟨k⟩, v)], r3)
            | _ => none
        | _ => none
    | _ => none

end

/-- Parse a complete buffer as a single JSON value; the model of a successful
`json.Unmarshal` of the buffer into `interface{}`.  `none` models a JSON syntax error. -/
def jsonParse (s : String) : Option JVal :=
  match parseV (s.data.length + 1) s.data with
  | some (v, rest) => if skipWs rest = [] then some v else none
  | none => none

mutual

/-- Node-count measure of a JSON value, used as a fuel lower bound for the parser. -/
def nodesV : JVal → Nat
  | .arr xs => 1 + nodesList xs
  | .obj kvs => 1 + nodesMembers kvs
  | _ => 1

/-- Node-count measure of a list of array elements. -/
def nodesList : List JVal → Nat
  | [] => 0
  | x :: xs => 1 + nodesV x + nodesList xs

/-- Node-count measure of a list of object members. -/
def nodesMembers : List (String × JVal) → Nat
  | [] => 0
  | kv :: kvs => 1 + nodesV kv.2 + nodesMembers kvs

end

/-- Requirement on the input following a rendered value: it must not start with a digit
(otherwise that digit would be absorbed into a preceding numeral). -/
def noDigitHead : List Char → Prop
  | [] => True
  | c :: _ => isDigitC c = false

/-- Memberwise induction principle for `JVal` (recursion through the nested lists). -/
def JVal.recOnMem {P : JVal → Prop}
    (hnull : P .null) (hbool : ∀ b, P (.bool b)) (hnum : ∀ n, P (.num n))
    (hstr : ∀ s, P (.str s))
    (harr : ∀ xs, (∀ x ∈ xs, P x) → P (.arr xs))
    (hobj : ∀ kvs, (∀ kv ∈ kvs, P kv.2) → P (.obj kvs)) :
    ∀ v, P v
  | .null => hnull
  | .bool b => hbool b
  | .num n => hnum n
  | .str s => hstr s
  | .arr xs => harr xs (fun x hx =>
      JVal.recOnMem hnull hbool hnum hstr harr hobj x)
  | .obj kvs => hobj kvs (fun kv hkv =>
      JVal.recOnMem hnull hbool hnum hstr harr hobj kv.2)
termination_by v => sizeOf v
decreasing_by
  · have := List.sizeOf_lt_of_mem hx
    simp only [JVal.arr.sizeOf_spec]
    omega
  · have h1 := List.sizeOf_lt_of_mem hkv
    have h2 : sizeOf kv.2 < sizeOf kv := by
      obtain ⟨a, b⟩ := kv
      simp only [Prod.mk.sizeOf_spec]
      omega
    simp only [JVal.obj.sizeOf_spec]
    omega

/-- Model of `MsgType` (results_parser.go): the polymorphic `msg` field, carrying a
string variant and a generic-array variant with the `IsString` tag. -/
structure MsgType where
  StringValue : String
  ArrayValue : List JVal
  IsString : Bool

/-- Embedding of `MsgType.UnmarshalJSON` (results_parser.go lines 23-30).  The Go code
reads `data[0]` unconditionally, which panics with an index-out-of-range on an empty
byte slice; that panic is modelled by the `none` result.  On non-empty input the first
byte decides the variant: a double quote selects `IsString = true` and a decode into
`StringValue`, anything else selects `IsString = false` and a decode into `ArrayValue`.
The two inner `json.Unmarshal` calls are modelled through `jsonParse` with
encoding/json's semantics for the target types: a string target accepts exactly a JSON
string (null leaves the zero value), a `[]interface{}` target accepts exactly a JSON
array (null leaves the nil slice). -/
def msgTypeUnmarshalJSON (data : String) : Option (Except String MsgType) :=
  match data.data with
  | [] => none
  | c :: _ =>
    some (if c = '"' then
      match jsonParse data with
      | some (.str s) => .ok ⟨s, [], true⟩
      | some .null => .ok ⟨"", [], true⟩
      | _ => .error "json: cannot unmarshal value into Go value of type string"
    else
      match jsonParse data with
      | some (.arr xs) => .ok ⟨"", xs, false⟩
      | some .null => .ok ⟨"", [], false⟩
      | _ => .error "json: cannot unmarshal value into Go value of type []interface \x7b\x7d")

/-- Model of `HostStats` (results_parser.go): per-host failure counters. -/
structure HostStats where
  Failures : Int
  Unreachable : Int

/-- Model of `Result` (results_parser.go): per-host result details. -/
structure Result where
  Failed : Bool
  Stderr : String
  Stdout : String
  Msg : MsgType
  Reason : String

/-- Model of `Host` (results_parser.go): embeds `Result` (field `toResult`), plus the
`unreachable` flag and the optional `results` sub-results.  Go's nil slice and an empty
slice both decode to `[]`, matching the code's combined `!= nil && len > 0` check. -/
structure Host where
  toResult : Result
  Unreachable : Bool
  Results : List Result

/-- Model of `Task` (results_parser.go): `hosts` map (as an association list in document
order; Go map keys are unique) and the nested `task.name` (field `TaskName`). -/
structure Task where
  Hosts : List (String × Host)
  TaskName : String

/-- Model of `Play` (results_parser.go): nested `play.name` (field `PlayName`) and the
ordered task list. -/
structure Play where
  PlayName : String
  Tasks : List Task

/-- Model of `Root` (results_parser.go): the decoded execution report. `Stats` is the
`map[string]HostStats` as an association list in document order. -/
structure Root where
  Plays : List Play
  Stats : List (String × HostStats)

/-- Lookup of a JSON object field; encoding/json lets a later duplicate key overwrite an
earlier one, so the last occurrence wins. -/
def lookupLast (key : String) : List (String × JVal) → Option JVal
  | [] => none
  | kv :: rest =>
    match lookupLast key rest with
    | some v => some v
    | none => if kv.1 = key then some kv.2 else none

/-- Field access with encoding/json's semantics: an absent field behaves like JSON null
(both leave the target's zero value untouched). -/
def getField (kvs : List (String × JVal)) (key : String) : JVal :=
  (lookupLast key kvs).getD .null

/-- encoding/json decode into a Go `bool` field. -/
def decodeBool : JVal → Except String Bool
  | .bool b => .ok b
  | .null => .ok false
  | _ => .error "json: cannot unmarshal value into Go value of type bool"

/-- encoding/json decode into a Go `string` field. -/
def decodeStr : JVal → Except String String
  | .str s => .ok s
  | .null => .ok ""
  | _ => .error "json: cannot unmarshal value into Go value of type string"

/-- encoding/json decode into a Go `int` field. -/
def decodeInt : JVal → Except String Int
  | .num n => .ok n
  | .null => .ok 0
  | _ => .error "json: cannot unmarshal value into Go value of type int"

/-- Decode of the `msg` field: encoding/json hands `MsgType.UnmarshalJSON` the raw bytes
of the field's value (never empty, so the panic branch is unreachable here). -/
def decodeMsg (v : JVal) : Except String MsgType :=
  match msgTypeUnmarshalJSON (JVal.render v) with
  | some r => r
  | none => .error "unreachable: rendered values are never empty"

/-- encoding/json decode into `Result` (field tags failed/stderr/stdout/msg/reason). -/
def decodeResult : JVal → Except String Result
  | .null => .ok ⟨false, "", "", ⟨"", [], false⟩, ""⟩
  | .obj kvs => do
    let failed ← decodeBool (getField kvs "failed")
    let stderr ← decodeStr (getField kvs "stderr")
    let stdout ← decodeStr (getField kvs "stdout")
    let msg ← decodeMsg (getField kvs "msg")
    let reason ← decodeStr (getField kvs "reason")
    pure ⟨failed, stderr, stdout, msg, reason⟩
  | _ => .error "json: cannot unmarshal value into Go value of type Result"

/-- encoding/json decode into `[]Result`. -/
def decodeResultList : JVal → Except String (List Result)
  | .null => .ok []
  | .arr xs => xs.mapM decodeResult
  | _ => .error "json: cannot unmarshal value into Go value of type []Result"

/-- encoding/json decode into `Host`: the embedded `Result` shares the same object. -/
def decodeHost : JVal → Except String Host
  | .null => .ok ⟨⟨false, "", "", ⟨"", [], false⟩, ""⟩, false, []⟩
  | .obj kvs => do
    let res ← decodeResult (.obj kvs)
    let unreachable ← decodeBool (getField kvs "unreachable")
    let results ← decodeResultList (getField kvs "results")
    pure ⟨res, unreachable, results⟩
  | _ => .error "json: cannot unmarshal value into Go value of type Host"

/-- encoding/json decode into `map[string]Host`. -/
def decodeHostsMap : JVal → Except String (List (String × Host))
  | .null => .ok []
  | .obj kvs => kvs.mapM fun kv => (decodeHost kv.2).map fun h => (kv.1, h)
  | _ => .error "json: cannot unmarshal value into Go value of type map[string]Host"

/-- encoding/json decode of the nested anonymous `struct ... name string ...`. -/
def decodeName : JVal → Except String String
  | .null => .ok ""
  | .obj kvs => decodeStr (getField kvs "name")
  | _ => .error "json: cannot unmarshal value into Go value of type struct"

/-- encoding/json decode into `Task` (field tags hosts/task). -/
def decodeTask : JVal → Except String Task
  | .null => .ok ⟨[], ""⟩
  | .obj kvs => do
    let hosts ← decodeHostsMap (getField kvs "hosts")
    let name ← decodeName (getField kvs "task")
    pure ⟨hosts, name⟩
  | _ => .error "json: cannot unmarshal value into Go value of type Task"

/-- encoding/json decode into `[]Task`. -/
def decodeTaskList : JVal → Except String (List Task)
  | .null => .ok []
  | .arr xs => xs.mapM decodeTask
  | _ => .error "json: cannot unmarshal value into Go value of type []Task"

/-- encoding/json decode into `Play` (field tags play/tasks). -/
def decodePlay : JVal → Except String Play
  | .null => .ok ⟨"", []⟩
  | .obj kvs => do
    let name ← decodeName (getField kvs "play")
    let tasks ← decodeTaskList (getField kvs "tasks")
    pure ⟨name, tasks⟩
  | _ => .error "json: cannot unmarshal value into Go value of type Play"

/-- encoding/json decode into `[]Play`. -/
def decodePlayList : JVal → Except String (List Play)
  | .null => .ok []
  | .arr xs => xs.mapM decodePlay
  | _ => .error "json: cannot unmarshal value into Go value of type []Play"

/-- encoding/json decode into `HostStats` (field tags failures/unreachable). -/
def decodeHostStats : JVal → Except String HostStats
  | .null => .ok ⟨0, 0⟩
  | .obj kvs => do
    let failures ← decodeInt (getField kvs "failures")
    let unreachable ← decodeInt (getField kvs "unreachable")
    pure ⟨failures, unreachable⟩
  | _ => .error "json: cannot unmarshal value into Go value of type HostStats"

/-- encoding/json decode into `Stats = map[string]HostStats`. -/
def decodeStatsMap : JVal → Except String (List (String × HostStats))
  | .null => .ok []
  | .obj kvs => kvs.mapM fun kv => (decodeHostStats kv.2).map fun h => (kv.1, h)
  | _ => .error "json: cannot unmarshal value into Go value of type Stats"

/-- encoding/json decode into `Root` (field tags plays/stats). -/
def decodeRoot : JVal → Except String Root
  | .null => .ok ⟨[], []⟩
  | .obj kvs => do
    let plays ← decodePlayList (getField kvs "plays")
    let stats ← decodeStatsMap (getField kvs "stats")
    pure ⟨plays, stats⟩
  | _ => .error "json: cannot unmarshal value into Go value of type Root"

/-- Model of `json.Unmarshal(buffer.Bytes(), &root)`: syntax errors (unparsable buffers)
and structural type mismatches are both decode errors. -/
def jsonUnmarshalRoot (buf : String) : Except String Root :=
  match jsonParse buf with
  | none => .error "invalid character in JSON input"
  | some v => decodeRoot v

/-- Embedding of `printFailedInfo` (results_parser.go lines 65-82). -/
def printFailedInfo (result : Result) (indent : String) : String :=
  let output := ""
  let output := if result.Msg.IsString = true ∧ result.Msg.StringValue.length > 0 then
      output ++ indent ++ "Msg:\t" ++ result.Msg.StringValue ++ "\n" else output
  let output := if result.Reason.length > 0 then
      output ++ indent ++ "Reason:\t" ++ result.Reason ++ "\n" else output
  let output := if result.Stderr.length > 0 then
      output ++ indent ++ "Stderr:\t" ++ result.Stderr ++ "\n" else output
  let output := if result.Stdout.length > 0 then
      output ++ indent ++ "Stdout:\t" ++ result.Stdout ++ "\n" else output
  output

/-- Text block emitted for one qualifying host in `AnalyzeJSON`'s rendering loop
(results_parser.go lines 116-131): the HOST header, the host's own failure details, and
the RESULTS sub-block when at least one sub-result failed. -/
def hostBlockStr (hostName : String) (host : Host) : String :=
  let output := "    HOST <" ++ hostName ++ ">\n"
  let output := output ++ printFailedInfo host.toResult "      "
  if host.Results.isEmpty then output
  else
    let resultsOutput := host.Results.foldl
      (fun acc r => if r.Failed = true then acc ++ printFailedInfo r "        " else acc) ""
    if resultsOutput.length > 0 then output ++ "      RESULTS\n" ++ resultsOutput
    else output

/-- Loop body of `AnalyzeJSON`'s innermost (host) loop (results_parser.go lines
105-132), threading the output and the play/task header-printed flags. -/
def hostStep (playName taskName : String) (st : String × Bool × Bool)
    (e : String × Host) : String × Bool × Bool :=
  let output := st.1
  let playHeaderPrinted := st.2.1
  let taskHeaderPrinted := st.2.2
  if (e.2.toResult.Failed || e.2.Unreachable) = true then
    let p := if playHeaderPrinted = false then
        (output ++ "PLAY <" ++ playName ++ ">\n", true) else (output, playHeaderPrinted)
    let q := if taskHeaderPrinted = false then
        (p.1 ++ "  TASK <" ++ taskName ++ ">\n", true) else (p.1, taskHeaderPrinted)
    (q.1 ++ hostBlockStr e.1 e.2, p.2, q.2)
  else st

/-- Loop body of `AnalyzeJSON`'s task loop (results_parser.go lines 103-134): the
task-header flag is reset for each task. -/
def taskStep (playName : String) (st : String × Bool) (task : Task) : String × Bool :=
  let r := task.Hosts.foldl (hostStep playName task.TaskName) (st.1, st.2, false)
  (r.1, r.2.1)

/-- Loop body of `AnalyzeJSON`'s play loop (results_parser.go lines 101-135): the
play-header flag is reset for each play. -/
def playStep (output : String) (play : Play) : String :=
  (play.Tasks.foldl (taskStep play.PlayName) (output, false)).1

/-- Failure detection over `stats` (results_parser.go lines 91-98). -/
def failureDetected (root : Root) : Bool :=
  root.Stats.any fun e => decide (e.2.Failures > 0) || decide (e.2.Unreachable > 0)

/-- Post-decode part of `AnalyzeJSON` (results_parser.go lines 90-137): failure
detection over `stats`, then (only on detection) the rendering pass over the play/task/
host tree. -/
def analyzeRoot (root : Root) : String × Bool :=
  if failureDetected root then (root.Plays.foldl playStep "", true) else ("", false)

/-- Embedding of `AnalyzeJSON` (results_parser.go lines 84-137).  The Go signature
`(string, bool, error)` is modelled as `String × Bool × Option String`, the last
component being the error. -/
def AnalyzeJSON (buffer : String) : String × Bool × Option String :=
  match jsonUnmarshalRoot buffer with
  | .error e => ("", false, some e)
  | .ok root => ((analyzeRoot root).1, (analyzeRoot root).2, none)

/-- Abstract line structure of the rendered failure output, used to state the
print-once-per-scope properties of the renderer. -/
inductive Line where
  | play (name : String)
  | task (name : String)
  | host (name : String)
  | info (text : String)
  | resultsHeader
deriving DecidableEq

/-- Concrete text of one emitted line. -/
def Line.text : Line → String
  | .play name => "PLAY <" ++ name ++ ">\n"
  | .task name => "  TASK <" ++ name ++ ">\n"
  | .host name => "    HOST <" ++ name ++ ">\n"
  | .info t => t
  | .resultsHeader => "      RESULTS\n"

/-- Concatenated text of a list of lines. -/
def linesText : List Line → String
  | [] => ""
  | l :: ls => l.text ++ linesText ls

/-- Qualifying predicate of the renderer's host loop: `host.Failed || host.Unreachable`. -/
def hostQual (h : Host) : Bool := h.toResult.Failed || h.Unreachable

/-- A task has some qualifying host entry. -/
def taskQual (t : Task) : Bool := t.Hosts.any fun e => hostQual e.2

/-- A play has some qualifying host entry in some task. -/
def playQual (p : Play) : Bool := p.Tasks.any taskQual

/-- Lines emitted by `printFailedInfo` for one result. -/
def infoLines (r : Result) (indent : String) : List Line :=
  (if r.Msg.IsString = true ∧ r.Msg.StringValue.length > 0 then
      [Line.info (indent ++ "Msg:\t" ++ r.Msg.StringValue ++ "\n")] else [])
  ++ (if r.Reason.length > 0 then
      [Line.info (indent ++ "Reason:\t" ++ r.Reason ++ "\n")] else [])
  ++ (if r.Stderr.length > 0 then
      [Line.info (indent ++ "Stderr:\t" ++ r.Stderr ++ "\n")] else [])
  ++ (if r.Stdout.length > 0 then
      [Line.info (indent ++ "Stdout:\t" ++ r.Stdout ++ "\n")] else [])

/-- Lines of the RESULTS sub-block of one host. -/
def resultsLines (h : Host) : List Line :=
  if h.Results.isEmpty then []
  else
    let failedInfos := (h.Results.filter fun r => r.Failed = true).flatMap
      fun r => infoLines r "        "
    if (linesText failedInfos).length > 0 then Line.resultsHeader :: failedInfos else []

/-- Lines emitted for one qualifying host entry. -/
def hostLines (hostName : String) (h : Host) : List Line :=
  Line.host hostName :: (infoLines h.toResult "      " ++ resultsLines h)

/-- Lines emitted for one task: a task header exactly when some host qualifies,
followed by the blocks of the qualifying hosts in order. -/
def taskLines (t : Task) : List Line :=
  if taskQual t then
    Line.task t.TaskName :: (t.Hosts.filter fun e => hostQual e.2).flatMap
      fun e => hostLines e.1 e.2
  else []

/-- Lines emitted for one play: a play header exactly when some host in some task
qualifies, followed by the tasks' lines. -/
def playLines (p : Play) : List Line :=
  if playQual p then Line.play p.PlayName :: p.Tasks.flatMap taskLines else []

/-- Line decomposition of the whole rendering pass. -/
def analyzeLines (root : Root) : List Line := root.Plays.flatMap playLines

/-- Constructor discriminator of `Line`, used in the print-once counting arguments. -/
def Line.kind : Line → Nat
  | .play _ => 0
  | .task _ => 1
  | .host _ => 2
  | .info _ => 3
  | .resultsHeader => 4

/-- Concrete report buffer of end-to-end scenario B: one failing host stat, one play
"P" with one task "T" where host "h1" failed with stderr "boom". -/
def scenarioB : String :=
  "\x7b\"stats\":\x7b\"h1\":\x7b\"failures\":1\x7d\x7d,\"plays\":[\x7b\"play\":\x7b\"name\":\"P\"\x7d,\"tasks\":[\x7b\"task\":\x7b\"name\":\"T\"\x7d,\"hosts\":\x7b\"h1\":\x7b\"failed\":true,\"stderr\":\"boom\"\x7d\x7d\x7d]\x7d]\x7d"

/-- Decoded report of scenario B. -/
def scenarioBRoot : Root :=
  ⟨[⟨"P", [⟨[("h1", ⟨⟨true, "boom", "", ⟨"", [], false⟩, ""⟩, false, []⟩)], "T"⟩]⟩],
   [("h1", ⟨1, 0⟩)]⟩

/-- Model of `ArtifactQuery` (internal/provider/utils.go lines 153-158). -/
structure ArtifactQuery where
  JSONPath : String
  FailOnMissingKey : Bool
  JsonOutput : Bool
  Result : String

/-- Modelled from the spec: state of the external JSONPath engine
(k8s.io/client-go/util/jsonpath), which is a dependency and not part of this
repository's source.  It mirrors the library surface used by `jsonPath`:
`jsonpath.New(name)`, `AllowMissingKeys`, `EnableJSONOutput`, `Parse`, `Execute`.
Per spec section 4.5, a compiled query is a field-access chain; missing-key tolerance
is configurable; a strict missing path yields an error naming the query. -/
structure JSONPathEngine where
  Name : String
  allowMissing : Bool
  jsonOutput : Bool
  fields : List String

/-- Modelled from the spec: `jsonpath.New(name)`. -/
def jpNew (name : String) : JSONPathEngine := ⟨name, false, false, []⟩

/-- Modelled from the spec: `AllowMissingKeys`. -/
def jpAllowMissingKeys (e : JSONPathEngine) (b : Bool) : JSONPathEngine :=
  ⟨e.Name, b, e.jsonOutput, e.fields⟩

/-- Modelled from the spec: `EnableJSONOutput`. -/
def jpEnableJSONOutput (e : JSONPathEngine) (b : Bool) : JSONPathEngine :=
  ⟨e.Name, e.allowMissing, b, e.fields⟩

/-- Identifier characters of a path segment. -/
def isIdentChar (c : Char) : Bool := c.isAlphanum || c = '_' || c = '-'

/-- Split a character list on dots. -/
def splitDots : List Char → List (List Char)
  | [] => [[]]
  | c :: cs =>
    if c = '.' then [] :: splitDots cs
    else
      match splitDots cs with
      | [] => [[c]]
      | s :: ss => (c :: s) :: ss

/-- Well-formedness of one path segment. -/
def identSeg (s : List Char) : Bool := !s.isEmpty && s.all isIdentChar

/-- Modelled from the spec: compilation of a braced path template.  Accepted forms are
an empty root query and dot-separated identifier chains, optionally rooted at `$`;
anything else is a compile (malformed path syntax) error, signalled by `none`. -/
def jpCompile (text : String) : Option (List String) :=
  match text.data with
  | '\x7b' :: rest =>
    match rest.reverse with
    | '\x7d' :: revInner =>
      let inner := revInner.reverse
      let body := match inner with
        | '$' :: t => t
        | t => t
      match body with
      | [] => some []
      | '.' :: t =>
        let segs := splitDots t
        if segs.all identSeg then some (segs.map fun s => ⟨s⟩) else none
      | _ => none
    | _ => none
  | _ => none

/-- Modelled from the spec: `Parse` compiles the path template into the engine; a
malformed template is a compile error naming the engine. -/
def jpParse (e : JSONPathEngine) (text : String) : Except String JSONPathEngine :=
  match jpCompile text with
  | some fs => .ok ⟨e.Name, e.allowMissing, e.jsonOutput, fs⟩
  | none => .error ("unrecognized character in " ++ e.Name)

/-- Modelled from the spec: evaluation of a field chain against a document.  A missing
field yields zero matches when tolerant, and an error naming the query (the engine
name) when strict. -/
def jpWalk (name : String) (allowMissing : Bool) : List String → JVal → Except String (List JVal)
  | [], v => .ok [v]
  | f :: fs, v =>
    match v with
    | .obj kvs =>
      match lookupLast f kvs with
      | some v' => jpWalk name allowMissing fs v'
      | none =>
        if allowMissing then .ok []
        else .error (name ++ ": " ++ f ++ " is not found")
    | _ =>
      if allowMissing then .ok []
      else .error (name ++ ": " ++ f ++ " is not found")

/-- Raw text of a matched value (strings print without quotes). -/
def jvalText : JVal → String
  | .str s => s
  | v => v.render

/-- Modelled from the spec: `Execute` writes the matches into the output buffer; zero
matches write nothing (empty string); with JSON output enabled the matches are
serialized as JSON, otherwise joined as raw text. -/
def jpExecute (e : JSONPathEngine) (blob : JVal) : Except String String :=
  match jpWalk e.Name e.allowMissing e.fields blob with
  | .error err => .error err
  | .ok results =>
    if results.isEmpty then .ok ""
    else .ok (if e.jsonOutput then (JVal.arr results).render
              else " ".intercalate (results.map jvalText))

/-- Embedding of `jsonPath` (internal/provider/utils.go lines 129-150): unmarshal the
raw report, create the engine named by the query's path, configure missing-key
tolerance as the negation of `FailOnMissingKey` and output shaping from `JsonOutput`,
parse the braced template, and execute. -/
def jsonPath (data : String) (query : ArtifactQuery) : Except String String :=
  match jsonParse data with
  | none => .error "invalid character in JSON input"
  | some blob =>
    let jp := jpNew query.JSONPath
    let jp := jpAllowMissingKeys jp (!query.FailOnMissingKey)
    let jp := jpEnableJSONOutput jp query.JsonOutput
    match jpParse jp ("\x7b" ++ query.JSONPath ++ "\x7d") with
    | .error e => .error e
    | .ok jp2 => jpExecute jp2 blob

/-- Embedding of `QueryPlaybookArtifact` (internal/provider/utils.go lines 160-173).
The Go map is an association list in iteration order; the in-place `Result` mutation
becomes the updated list returned on success.  The first failing query aborts the batch
with the wrapped error. -/
def QueryPlaybookArtifact (stdout : String) :
    List (String × ArtifactQuery) → Except String (List (String × ArtifactQuery))
  | [] => .ok []
  | (name, query) :: rest =>
    match jsonPath stdout query with
    | .error err => .error ("failed to query playbook artifact with JSONPath, " ++ err)
    | .ok result =>
      match QueryPlaybookArtifact stdout rest with
      | .error e => .error e
      | .ok updated =>
        .ok ((name, ⟨query.JSONPath, query.FailOnMissingKey, query.JsonOutput, result⟩)
          :: updated)

/-- Substring membership on character lists (plain executable recursion). -/
def seqMem (needle : List Char) : List Char → Bool
  | [] => needle.isEmpty
  | c :: t => needle.isPrefixOf (c :: t) || seqMem needle t

/-- Value of one extra variable: a Terraform string value, or a non-string value that
the builder marshals to JSON. -/
inductive ExtraVal where
  | str (s : String)
  | json (v : JVal)

/-- Embedding of `CreateVerboseSwitch` (providerutils/utils.go lines 22-33). -/
def CreateVerboseSwitch (verbosity : Nat) : String :=
  if verbosity = 0 then "" else "-" ++ ⟨List.replicate verbosity 'v'⟩

/-- Typed configuration consumed by `resourcePlaybook2Create`
(resource_playbook2.go lines 231-351).  `extraVars` models the Go map
`map[string]interface{}` as an association list in the map's iteration order, an order
Go deliberately does not fix across runs. -/
structure Playbook2Config where
  playbook : String
  name : String
  verbosity : Nat
  tags : List String
  limit : List String
  checkMode : Bool
  diffMode : Bool
  forceHandlers : Bool
  varFiles : List String
  vaultFiles : List String
  vaultPasswordFile : String
  vaultID : String
  extraVars : List (String × ExtraVal)

/-- Rendering of one extra-variable argument (resource_playbook2.go lines 471-491):
a string value becomes `key=value`; a non-string value is marshalled as the one-entry
JSON object so the external tool parses it as typed data. -/
def extraVarArg : String × ExtraVal → String
  | (key, .str s) => key ++ "=" ++ s
  | (key, .json v) => (JVal.obj [(key, v)]).render

/-- Outcome of the create call: the built argument vector, the error-diagnostic
summaries appended while building, and whether the external process launch is reached. -/
structure CreateOutcome where
  args : List String
  diags : List String
  invoked : Bool

/-- The vault-related diagnostic of resource_playbook2.go line 463. -/
def vaultErrMsg : String :=
  "ERROR [ansible-playbook]: can't access vault file(s)! Missing 'vault_password_file'!"

/-- Embedding of the argument-building phase of `resourcePlaybook2Create`
(resource_playbook2.go lines 355-519).  `invoked` records that the external process
launch is reached: the source calls `resourcePlaybook2Update` unconditionally at line
515 regardless of previously appended error diagnostics, and that function runs
`exec.Command` and `Start` (lines 665-679) with no early return, so it is always
`true`. -/
def resourcePlaybook2Create (cfg : Playbook2Config) : CreateOutcome :=
  let args : List String := []
  let verbose := CreateVerboseSwitch cfg.verbosity
  let args := if verbose ≠ "" then args ++ [verbose] else args
  let args := if cfg.forceHandlers then args ++ ["--force-handlers"] else args
  let args := if cfg.name ≠ "" then args ++ ["-e", "hostname=" ++ cfg.name] else args
  let args := if cfg.tags.length > 0 then
      args ++ ["--tags", String.intercalate "," cfg.tags] else args
  let args := if cfg.limit.length > 0 then
      args ++ ["--limit", String.intercalate "," cfg.limit] else args
  let args := if cfg.checkMode then args ++ ["--check"] else args
  let args := if cfg.diffMode then args ++ ["--diff"] else args
  let args := args ++ cfg.varFiles.flatMap fun f => ["-e", "@" ++ f]
  let vault :=
    if cfg.vaultFiles.length ≠ 0 then
      let vargs := (cfg.vaultFiles.flatMap fun f => ["-e", "@" ++ f]) ++ ["--vault-id"]
      let vaultIDArg := if cfg.vaultID ≠ "" then cfg.vaultID else ""
      if cfg.vaultPasswordFile ≠ "" then
        (vargs ++ [vaultIDArg ++ "@" ++ cfg.vaultPasswordFile], ([] : List String))
      else
        (vargs ++ [vaultIDArg], [vaultErrMsg])
    else ([], [])
  let args := args ++ vault.1
  let args := args ++ cfg.extraVars.flatMap fun kv => ["-e", extraVarArg kv]
  let args := args ++ [cfg.playbook]
  ⟨args, vault.2, true⟩

/-- Argument vector of the builder without the extra-variable block and the trailing
playbook path: the deterministic part of the vector. -/
def playbook2FixedArgs (cfg : Playbook2Config) : List String :=
  let args : List String := []
  let verbose := CreateVerboseSwitch cfg.verbosity
  let args := if verbose ≠ "" then args ++ [verbose] else args
  let args := if cfg.forceHandlers then args ++ ["--force-handlers"] else args
  let args := if cfg.name ≠ "" then args ++ ["-e", "hostname=" ++ cfg.name] else args
  let args := if cfg.tags.length > 0 then
      args ++ ["--tags", String.intercalate "," cfg.tags] else args
  let args := if cfg.limit.length > 0 then
      args ++ ["--limit", String.intercalate "," cfg.limit] else args
  let args := if cfg.checkMode then args ++ ["--check"] else args
  let args := if cfg.diffMode then args ++ ["--diff"] else args
  let args := args ++ cfg.varFiles.flatMap fun f => ["-e", "@" ++ f]
  let vault :=
    if cfg.vaultFiles.length ≠ 0 then
      let vargs := (cfg.vaultFiles.flatMap fun f => ["-e", "@" ++ f]) ++ ["--vault-id"]
      let vaultIDArg := if cfg.vaultID ≠ "" then cfg.vaultID else ""
      if cfg.vaultPasswordFile ≠ "" then
        (vargs ++ [vaultIDArg ++ "@" ++ cfg.vaultPasswordFile], ([] : List String))
      else
        (vargs ++ [vaultIDArg], [vaultErrMsg])
    else ([], [])
  args ++ vault.1

/-- Configuration of the C7 counterexample, extra vars in iteration order alpha, beta. -/
def c7cfgA : Playbook2Config :=
  ⟨"site.yml", "", 0, [], [], false, false, false, [], [], "", "",
   [("alpha", .str "1"), ("beta", .str "2")]⟩

/-- The same configuration with the opposite map-iteration order. -/
def c7cfgB : Playbook2Config :=
  ⟨"site.yml", "", 0, [], [], false, false, false, [], [], "", "",
   [("beta", .str "2"), ("alpha", .str "1")]⟩

/-- Configuration of the C6 counterexample: one vault file, no vault password file. -/
def c6cfg : Playbook2Config :=
  ⟨"site.yml", "", 0, [], [], false, false, false, [], ["secrets.yml"], "", "", []⟩

/-- Diagnostic severity. -/
inductive Sev where
  | error
  | warning
deriving DecidableEq

/-- One user-facing diagnostic: severity, summary, detail. -/
structure Diag where
  sev : Sev
  summary : String
  detail : String
deriving DecidableEq

/-- Embedding of the post-run diagnostic behaviour of `Execute`
(internal/provider/playbook.go lines 60-113).  The process run itself is external; its
outcome enters as the `executionFailed` flag (a non-nil `executionError`, whose text is
`errText`) and the captured stdout/stderr.  Framework state writes (`data.…`) are
omitted; artifact queries enter as the already-extracted association list.  Diagnostics
are listed in append order: the stderr warning, then the branch diagnostics. -/
def executeDiags (executionFailed : Bool) (errText stdout stderr : String)
    (queries : List (String × ArtifactQuery)) : List Diag :=
  let warn : List Diag :=
    if stderr.length > 0 then [⟨.warning, "Stderr from Ansible", stderr⟩] else []
  if executionFailed then
    let summary := "Ansible playbook command finished with an error: " ++ errText
    match AnalyzeJSON stdout with
    | (_, _, some e) =>
      warn ++ [⟨.error, "Error analyzing result JSON: " ++ e, "STDOUT:\n" ++ stdout⟩,
               ⟨.error, summary, ""⟩]
    | (formatted, hadFailure, none) =>
      warn ++ [⟨.error, summary, if hadFailure then formatted else ""⟩]
  else
    let queryDiags : List Diag :=
      match QueryPlaybookArtifact stdout queries with
      | .error e => [⟨.error, "Playbook artifact queries failed", e⟩]
      | .ok _ => []
    match AnalyzeJSON stdout with
    | (_, _, some e) =>
      warn ++ queryDiags
        ++ [⟨.error, "Error analyzing result JSON: " ++ e,
             "STDERR:\n" ++ stderr ++ "\n\nSTDOUT:\n" ++ stdout⟩]
    | (formatted, hadFailure, none) =>
      warn ++ queryDiags
        ++ (if hadFailure then [⟨.warning, "Ansible results", formatted⟩] else [])

theorem digitChar_toNat {d : Nat} (h : d < 10) : (digitChar d).toNat = 48 + d := by
  interval_cases d <;> decide

theorem digitChar_isDigit {d : Nat} (h : d < 10) : isDigitC (digitChar d) = true := by
  interval_cases d <;> decide

theorem natChars_digits : ∀ fuel n, ∀ c ∈ natChars fuel n, isDigitC c = true := by
  intro fuel
  induction fuel with
  | zero => intro n c hc; simp [natChars] at hc
  | succ f ih =>
    intro n c hc
    match n with
    | 0 => simp [natChars] at hc
    | m + 1 =>
      simp only [natChars, List.mem_append, List.mem_singleton] at hc
      rcases hc with hc | hc
      · exact ih _ c hc
      · subst hc
        exact digitChar_isDigit (Nat.mod_lt _ (by omega))

theorem natChars_ne_nil {fuel n : Nat} (h0 : 0 < n) (hf : n ≤ fuel) :
    natChars fuel n ≠ [] := by
  match fuel, n with
  | 0, _ => omega
  | _ + 1, 0 => omega
  | f + 1, m + 1 => simp [natChars]

theorem foldl_natChars : ∀ fuel n acc, n ≤ fuel →
    (natChars fuel n).foldl (fun a c => a * 10 + (c.toNat - 48)) acc
      = acc * 10 ^ (natChars fuel n).length + n := by
  intro fuel
  induction fuel with
  | zero => intro n acc h; interval_cases n; simp [natChars]
  | succ f ih =>
    intro n acc h
    match n with
    | 0 => simp [natChars]
    | m + 1 =>
      have hd : (m + 1) / 10 ≤ f := by omega
      simp only [natChars, List.foldl_append, List.foldl_cons, List.foldl_nil,
        List.length_append, List.length_cons, List.length_nil]
      rw [ih _ _ hd]
      have hlt : (m + 1) % 10 < 10 := Nat.mod_lt _ (by omega)
      rw [digitChar_toNat hlt]
      have hmod := Nat.div_add_mod (m + 1) 10
      have : 48 + (m + 1) % 10 - 48 = (m + 1) % 10 := by omega
      rw [this, pow_succ]
      ring_nf
      omega

theorem digitsVal_renderNat (n : Nat) : digitsVal (renderNat n) = n := by
  unfold renderNat digitsVal
  by_cases h : n = 0
  · subst h; decide
  · rw [if_neg h, foldl_natChars n n _ (le_refl n)]
    omega

theorem renderNat_digits (n : Nat) : ∀ c ∈ renderNat n, isDigitC c = true := by
  intro c hc
  unfold renderNat at hc
  by_cases h : n = 0
  · subst h; simp at hc; subst hc; decide
  · rw [if_neg h] at hc; exact natChars_digits n n c hc

theorem renderNat_ne_nil (n : Nat) : renderNat n ≠ [] := by
  unfold renderNat
  by_cases h : n = 0
  · subst h; simp
  · rw [if_neg h]; exact natChars_ne_nil (by omega) (le_refl n)

theorem ne_of_digit {c d : Char} (hc : isDigitC c = true) (hd : isDigitC d = false) :
    c ≠ d := by
  intro h; subst h; rw [hc] at hd; cases hd

theorem notWs_of_digit {c : Char} (hc : isDigitC c = true) : isWs c = false := by
  have h1 : c ≠ ' ' := ne_of_digit hc (by decide)
  have h2 : c ≠ '\n' := ne_of_digit hc (by decide)
  have h3 : c ≠ '\t' := ne_of_digit hc (by decide)
  have h4 : c ≠ '\r' := ne_of_digit hc (by decide)
  simp [isWs, h1, h2, h3, h4]

theorem skipWs_cons {c : Char} (h : isWs c = false) (cs : List Char) :
    skipWs (c :: cs) = c :: cs := by
  simp [skipWs, h]

theorem takeDigits_of_digits : ∀ (ds rest : List Char),
    (∀ c ∈ ds, isDigitC c = true) → noDigitHead rest →
    takeDigits (ds ++ rest) = (ds, rest) := by
  intro ds
  induction ds with
  | nil =>
    intro rest _ hrest
    match rest with
    | [] => rfl
    | c :: t =>
      have hc : isDigitC c = false := hrest
      simp [takeDigits, hc]
  | cons d t ih =>
    intro rest hds hrest
    have hd : isDigitC d = true := hds d (List.mem_cons_self d t)
    have ht := ih rest (fun c hc => hds c (List.mem_cons_of_mem d hc)) hrest
    simp [takeDigits, hd, List.append_eq, ht]

theorem parseStrChars_escape : ∀ (s rest : List Char),
    parseStrChars (escapeStr s ++ '"' :: rest) = some (s, rest) := by
  intro s
  induction s with
  | nil =>
    intro rest
    show parseStrChars ([].flatMap escapeChar ++ '"' :: rest) = some ([], rest)
    rw [List.flatMap_nil, List.nil_append, parseStrChars.eq_def]
    simp
  | cons c t ih =>
    intro rest
    have hstep : escapeStr (c :: t) = escapeChar c ++ escapeStr t := by
      simp [escapeStr]
    rw [hstep]
    by_cases h1 : c = '"'
    · subst h1; simp [escapeChar, parseStrChars, unescapeChar, ih]
    · by_cases h2 : c = '\\'
      · subst h2; simp [escapeChar, parseStrChars, unescapeChar, ih]
      · by_cases h3 : c = '\n'
        · subst h3; simp [escapeChar, parseStrChars, unescapeChar, ih]
        · by_cases h4 : c = '\t'
          · subst h4; simp [escapeChar, parseStrChars, unescapeChar, ih]
          · by_cases h5 : c = '\r'
            · subst h5; simp [escapeChar, parseStrChars, unescapeChar, ih]
            · have hesc : escapeChar c = [c] := by
                simp [escapeChar, h1, h2, h3, h4, h5]
              rw [hesc]
              show parseStrChars (c :: (escapeStr t ++ '"' :: rest)) = some (c :: t, rest)
              rw [parseStrChars.eq_def]
              simp [h1, h2, ih]

theorem renderV_head (v : JVal) :
    ∃ c cs, renderV v = c :: cs ∧ isWs c = false ∧ c ≠ ']' ∧ c ≠ '\x7d' := by
  cases v with
  | null => exact ⟨'n', _, rfl, by decide, by decide, by decide⟩
  | bool b =>
    cases b
    · exact ⟨'f', _, rfl, by decide, by decide, by decide⟩
    · exact ⟨'t', _, rfl, by decide, by decide, by decide⟩
  | num n =>
    show ∃ c cs, renderInt n = c :: cs ∧ _
    unfold renderInt
    by_cases hneg : n < 0
    · rw [if_pos hneg]
      exact ⟨'-', _, rfl, by decide, by decide, by decide⟩
    · rw [if_neg hneg]
      cases hnc : renderNat n.toNat with
      | nil => exact absurd hnc (renderNat_ne_nil _)
      | cons c cs =>
        have hcdig : isDigitC c = true :=
          renderNat_digits n.toNat c (by rw [hnc]; exact List.mem_cons_self _ _)
        exact ⟨c, cs, rfl, notWs_of_digit hcdig,
          ne_of_digit hcdig (by decide), ne_of_digit hcdig (by decide)⟩
  | str s => exact ⟨'"', _, rfl, by decide, by decide, by decide⟩
  | arr xs => exact ⟨'[', _, rfl, by decide, by decide, by decide⟩
  | obj kvs => exact ⟨'\x7b', _, rfl, by decide, by decide, by decide⟩

theorem renderElems_cons (x : JVal) (t : List JVal) :
    ∃ s, renderElems (x :: t) = renderV x ++ s := by
  cases t with
  | nil => exact ⟨[], by simp [renderElems]⟩
  | cons y ys => exact ⟨',' :: renderElems (y :: ys), rfl⟩

theorem parseElems_render (xs : List JVal)
    (IH : ∀ x ∈ xs, ∀ fuel rest, nodesV x ≤ fuel → noDigitHead rest →
      parseV fuel (renderV x ++ rest) = some (x, rest)) :
    xs ≠ [] → ∀ fuel rest, nodesList xs ≤ fuel →
    parseElems fuel (renderElems xs ++ ']' :: rest) = some (xs, rest) := by
  induction xs with
  | nil => intro h; exact absurd rfl h
  | cons x t iht =>
    intro _ fuel rest hfuel
    have hx := IH x (List.mem_cons_self x t)
    have h1 : 1 + nodesV x + nodesList t ≤ fuel := hfuel
    obtain ⟨f, rfl⟩ : ∃ f, fuel = f + 1 := ⟨fuel - 1, by omega⟩
    match t with
    | [] =>
      have hpx : parseV f (renderV x ++ ']' :: rest) = some (x, ']' :: rest) :=
        hx f (']' :: rest) (by omega) (by show isDigitC ']' = false; decide)
      have hre : renderElems [x] ++ ']' :: rest = renderV x ++ ']' :: rest := by
        simp [renderElems]
      rw [hre, parseElems.eq_def]
      simp [hpx, skipWs, isWs]
    | y :: ys =>
      have hrest : noDigitHead (',' :: (renderElems (y :: ys) ++ ']' :: rest)) := by
        show isDigitC ',' = false; decide
      have hpx : parseV f (renderV x ++ ',' :: (renderElems (y :: ys) ++ ']' :: rest))
          = some (x, ',' :: (renderElems (y :: ys) ++ ']' :: rest)) :=
        hx f _ (by omega) hrest
      have hre : renderElems (x :: y :: ys) ++ ']' :: rest
          = renderV x ++ ',' :: (renderElems (y :: ys) ++ ']' :: rest) := by
        show (renderV x ++ ',' :: renderElems (y :: ys)) ++ ']' :: rest = _
        simp
      have hrec : parseElems f (renderElems (y :: ys) ++ ']' :: rest) = some (y :: ys, rest) :=
        iht (fun z hz => IH z (List.mem_cons_of_mem x hz)) (by simp) f rest
          (by have : nodesList (y :: ys) = 1 + nodesV y + nodesList ys := rfl; omega)
      rw [hre, parseElems.eq_def]
      simp [hpx, hrec, skipWs, isWs]

theorem parseMembers_render (kvs : List (String × JVal))
    (IH : ∀ kv ∈ kvs, ∀ fuel rest, nodesV kv.2 ≤ fuel → noDigitHead rest →
      parseV fuel (renderV kv.2 ++ rest) = some (kv.2, rest)) :
    kvs ≠ [] → ∀ fuel rest, nodesMembers kvs ≤ fuel →
    parseMembers fuel (renderMembers kvs ++ '\x7d' :: rest) = some (kvs, rest) := by
  induction kvs with
  | nil => intro h; exact absurd rfl h
  | cons kv t iht =>
    obtain ⟨k, v⟩ := kv
    obtain ⟨kd⟩ := k
    intro _ fuel rest hfuel
    have hv := IH (⟨kd⟩, v) (List.mem_cons_self _ t)
    have h1 : 1 + nodesV v + nodesMembers t ≤ fuel := hfuel
    obtain ⟨f, rfl⟩ : ∃ f, fuel = f + 1 := ⟨fuel - 1, by omega⟩
    have hkey := parseStrChars_escape kd
    match t with
    | [] =>
      have hpv : parseV f (renderV v ++ '\x7d' :: rest) = some (v, '\x7d' :: rest) :=
        hv f _ (by show nodesV v ≤ f; omega) (by show isDigitC '\x7d' = false; decide)
      have hre : renderMembers [(⟨kd⟩, v)] ++ '\x7d' :: rest
          = '"' :: (escapeStr kd ++ '"' :: (':' :: (renderV v ++ '\x7d' :: rest))) := by
        show (('"' :: (escapeStr kd ++ ['"', ':'])) ++ renderV v) ++ '\x7d' :: rest = _
        simp
      rw [hre, parseMembers.eq_def]
      simp [skipWs, isWs, hkey, hpv]
    | m :: ms =>
      have hrest : noDigitHead (',' :: (renderMembers (m :: ms) ++ '\x7d' :: rest)) := by
        show isDigitC ',' = false; decide
      have hpv : parseV f (renderV v ++ ',' :: (renderMembers (m :: ms) ++ '\x7d' :: rest))
          = some (v, ',' :: (renderMembers (m :: ms) ++ '\x7d' :: rest)) :=
        hv f _ (by show nodesV v ≤ f; omega) hrest
      have hre : renderMembers ((⟨kd⟩, v) :: m :: ms) ++ '\x7d' :: rest
          = '"' :: (escapeStr kd ++ '"' :: (':' ::
              (renderV v ++ ',' :: (renderMembers (m :: ms) ++ '\x7d' :: rest)))) := by
        show ((('"' :: (escapeStr kd ++ ['"', ':'])) ++ renderV v) ++ ',' :: renderMembers (m :: ms))
            ++ '\x7d' :: rest = _
        simp
      have hrec : parseMembers f (renderMembers (m :: ms) ++ '\x7d' :: rest)
          = some (m :: ms, rest) :=
        iht (fun z hz => IH z (List.mem_cons_of_mem _ hz)) (by simp) f rest
          (by have : nodesMembers (m :: ms) = 1 + nodesV m.2 + nodesMembers ms := rfl; omega)
      rw [hre, parseMembers.eq_def]
      simp [skipWs, isWs, hkey, hpv, hrec]

/-- Correctness of the parser on rendered values: parsing a rendered JSON value (followed
by any non-digit-initial remainder) recovers exactly that value. -/
theorem parseV_renderV : ∀ v fuel rest, nodesV v ≤ fuel → noDigitHead rest →
    parseV fuel (renderV v ++ rest) = some (v, rest) := by
  intro v
  induction v using JVal.recOnMem with
  | hnull =>
    intro fuel rest hn _
    have h1 : (1 : Nat) ≤ fuel := hn
    obtain ⟨f, rfl⟩ : ∃ f, fuel = f + 1 := ⟨fuel - 1, by omega⟩
    rfl
  | hbool b =>
    intro fuel rest hn _
    have h1 : (1 : Nat) ≤ fuel := hn
    obtain ⟨f, rfl⟩ : ∃ f, fuel = f + 1 := ⟨fuel - 1, by omega⟩
    cases b <;> rfl
  | hnum n =>
    intro fuel rest hn hr
    have h1 : (1 : Nat) ≤ fuel := hn
    obtain ⟨f, rfl⟩ : ∃ f, fuel = f + 1 := ⟨fuel - 1, by omega⟩
    by_cases hneg : n < 0
    · have hrend : renderV (.num n) = '-' :: renderNat n.natAbs := by
        show renderInt n = _
        simp [renderInt, hneg]
      have ht := takeDigits_of_digits (renderNat n.natAbs) rest (renderNat_digits _) hr
      have hval := digitsVal_renderNat n.natAbs
      have hnn := renderNat_ne_nil n.natAbs
      rw [hrend, List.cons_append, parseV.eq_def]
      simp [skipWs, isWs, List.append_eq, ht, hnn, hval]
      rw [Int.abs_eq_natAbs]
      omega
    · have hrend : renderV (.num n) = renderNat n.toNat := by
        show renderInt n = _
        simp [renderInt, hneg]
      cases hnc : renderNat n.toNat with
      | nil => exact absurd hnc (renderNat_ne_nil _)
      | cons c cs =>
        have hcdig : isDigitC c = true :=
          renderNat_digits n.toNat c (by rw [hnc]; exact List.mem_cons_self _ _)
        have hne1 : c ≠ '\x7b' := ne_of_digit hcdig (by decide)
        have hne2 : c ≠ '[' := ne_of_digit hcdig (by decide)
        have hne3 : c ≠ '"' := ne_of_digit hcdig (by decide)
        have hne4 : c ≠ 'n' := ne_of_digit hcdig (by decide)
        have hne5 : c ≠ 't' := ne_of_digit hcdig (by decide)
        have hne6 : c ≠ 'f' := ne_of_digit hcdig (by decide)
        have hne7 : c ≠ '-' := ne_of_digit hcdig (by decide)
        have hws : isWs c = false := notWs_of_digit hcdig
        have ht : takeDigits (c :: (cs ++ rest)) = (c :: cs, rest) := by
          have := takeDigits_of_digits (c :: cs) rest (by rw [← hnc]; exact renderNat_digits _) hr
          rwa [List.cons_append] at this
        have hval : digitsVal (c :: cs) = n.toNat := by
          rw [← hnc]; exact digitsVal_renderNat _
        rw [hrend, hnc, List.cons_append, parseV.eq_def]
        simp [skipWs_cons hws, hne1, hne2, hne3, hne4, hne5, hne6, hne7, hcdig,
          List.append_eq, ht, hval]
        omega
  | hstr s =>
    intro fuel rest hn _
    obtain ⟨sd⟩ := s
    have h1 : (1 : Nat) ≤ fuel := hn
    obtain ⟨f, rfl⟩ : ∃ f, fuel = f + 1 := ⟨fuel - 1, by omega⟩
    have hre : renderV (.str ⟨sd⟩) ++ rest = '"' :: (escapeStr sd ++ '"' :: rest) := by
      show ('"' :: (escapeStr sd ++ ['"'])) ++ rest = _
      simp
    rw [hre, parseV.eq_def]
    simp [skipWs, isWs, parseStrChars_escape]
  | harr xs ihx =>
    intro fuel rest hn _
    have h1 : 1 + nodesList xs ≤ fuel := hn
    obtain ⟨f, rfl⟩ : ∃ f, fuel = f + 1 := ⟨fuel - 1, by omega⟩
    match xs with
    | [] => rfl
    | x :: t =>
      obtain ⟨c, cs, hc, hws, hne1, _⟩ := renderV_head x
      obtain ⟨s, hs⟩ := renderElems_cons x t
      have hX : renderElems (x :: t) ++ ']' :: rest = c :: (cs ++ (s ++ ']' :: rest)) := by
        rw [hs, hc]; simp
      have helems : parseElems f (c :: (cs ++ (s ++ ']' :: rest))) = some (x :: t, rest) := by
        rw [← hX]
        exact parseElems_render (x :: t) ihx (by simp) f rest (by omega)
      have hre : renderV (.arr (x :: t)) ++ rest
          = '[' :: (renderElems (x :: t) ++ ']' :: rest) := by
        show ('[' :: (renderElems (x :: t) ++ [']'])) ++ rest = _
        simp
      rw [hre, hX]
      have hstep : parseV (f + 1) ('[' :: (c :: (cs ++ (s ++ ']' :: rest))))
          = (match skipWs (c :: (cs ++ (s ++ ']' :: rest))) with
             | [] => none
             | d :: ds =>
               if d = ']' then some (.arr [], ds)
               else (parseElems f (d :: ds)).map fun p => (.arr p.1, p.2)) := rfl
      rw [hstep, skipWs_cons hws]
      simp [hne1, helems]
  | hobj kvs ihkv =>
    intro fuel rest hn _
    have h1 : 1 + nodesMembers kvs ≤ fuel := hn
    obtain ⟨f, rfl⟩ : ∃ f, fuel = f + 1 := ⟨fuel - 1, by omega⟩
    match kvs with
    | [] => rfl
    | kv :: t =>
      have hX : ∃ s, renderMembers (kv :: t) ++ '\x7d' :: rest = '"' :: s := by
        cases t with
        | nil =>
          refine ⟨(escapeStr kv.1.data ++ ['"', ':']) ++ renderV kv.2 ++ '\x7d' :: rest, ?_⟩
          show (('"' :: (escapeStr kv.1.data ++ ['"', ':'])) ++ renderV kv.2) ++ '\x7d' :: rest = _
          simp
        | cons m ms =>
          refine ⟨(escapeStr kv.1.data ++ ['"', ':']) ++ renderV kv.2
            ++ ',' :: renderMembers (m :: ms) ++ '\x7d' :: rest, ?_⟩
          show ((('"' :: (escapeStr kv.1.data ++ ['"', ':'])) ++ renderV kv.2)
            ++ ',' :: renderMembers (m :: ms)) ++ '\x7d' :: rest = _
          simp
      obtain ⟨s, hs⟩ := hX
      have hmems : parseMembers f ('"' :: s) = some (kv :: t, rest) := by
        rw [← hs]
        exact parseMembers_render (kv :: t) ihkv (by simp) f rest (by omega)
      have hre : renderV (.obj (kv :: t)) ++ rest
          = '\x7b' :: (renderMembers (kv :: t) ++ '\x7d' :: rest) := by
        show ('\x7b' :: (renderMembers (kv :: t) ++ ['\x7d'])) ++ rest = _
        simp
      rw [hre, hs, parseV.eq_def]
      simp [skipWs, isWs, hmems]

theorem nodesList_le (xs : List JVal) (IH : ∀ x ∈ xs, nodesV x ≤ (renderV x).length) :
    nodesList xs ≤ (renderElems xs).length + 1 := by
  induction xs with
  | nil => simp [nodesList, renderElems]
  | cons x t iht =>
    have hx := IH x (List.mem_cons_self x t)
    match t with
    | [] =>
      have h1 : nodesList [x] = 1 + nodesV x + 0 := rfl
      have h2 : (renderElems [x]).length = (renderV x).length := rfl
      omega
    | y :: ys =>
      have ht := iht (fun z hz => IH z (List.mem_cons_of_mem x hz))
      have h1 : nodesList (x :: y :: ys) = 1 + nodesV x + nodesList (y :: ys) := rfl
      have h2 : (renderElems (x :: y :: ys)).length
          = (renderV x).length + 1 + (renderElems (y :: ys)).length := by
        show (renderV x ++ ',' :: renderElems (y :: ys)).length = _
        simp
        omega
      omega

theorem nodesMembers_le (kvs : List (String × JVal))
    (IH : ∀ kv ∈ kvs, nodesV kv.2 ≤ (renderV kv.2).length) :
    nodesMembers kvs ≤ (renderMembers kvs).length + 1 := by
  induction kvs with
  | nil => simp [nodesMembers, renderMembers]
  | cons kv t iht =>
    have hx := IH kv (List.mem_cons_self kv t)
    match t with
    | [] =>
      have h1 : nodesMembers [kv] = 1 + nodesV kv.2 + 0 := rfl
      have h2 : (renderMembers [kv]).length
          = 1 + (escapeStr kv.1.data).length + 2 + (renderV kv.2).length := by
        show (('"' :: (escapeStr kv.1.data ++ ['"', ':'])) ++ renderV kv.2).length = _
        simp
        omega
      omega
    | m :: ms =>
      have ht := iht (fun z hz => IH z (List.mem_cons_of_mem kv hz))
      have h1 : nodesMembers (kv :: m :: ms) = 1 + nodesV kv.2 + nodesMembers (m :: ms) := rfl
      have h2 : (renderMembers (kv :: m :: ms)).length
          = 1 + (escapeStr kv.1.data).length + 2 + (renderV kv.2).length
            + 1 + (renderMembers (m :: ms)).length := by
        show ((('"' :: (escapeStr kv.1.data ++ ['"', ':'])) ++ renderV kv.2)
          ++ ',' :: renderMembers (m :: ms)).length = _
        simp
        omega
      omega

theorem nodesV_le (v : JVal) : nodesV v ≤ (renderV v).length := by
  induction v using JVal.recOnMem with
  | hnull => show 1 ≤ 4; omega
  | hbool b => cases b
               · show 1 ≤ 5; omega
               · show 1 ≤ 4; omega
  | hnum n =>
    show 1 ≤ (renderInt n).length
    unfold renderInt
    by_cases hneg : n < 0
    · rw [if_pos hneg]; simp
    · rw [if_neg hneg]
      have := renderNat_ne_nil n.toNat
      cases h : renderNat n.toNat with
      | nil => exact absurd h this
      | cons c cs => simp
  | hstr s =>
    show 1 ≤ ('"' :: (escapeStr s.data ++ ['"'])).length
    simp
  | harr xs ihx =>
    have h1 : nodesV (.arr xs) = 1 + nodesList xs := rfl
    have h2 : (renderV (.arr xs)).length = 1 + (renderElems xs).length + 1 := by
      show ('[' :: (renderElems xs ++ [']'])).length = _
      simp
      omega
    have := nodesList_le xs ihx
    omega
  | hobj kvs ihkv =>
    have h1 : nodesV (.obj kvs) = 1 + nodesMembers kvs := rfl
    have h2 : (renderV (.obj kvs)).length = 1 + (renderMembers kvs).length + 1 := by
      show ('\x7b' :: (renderMembers kvs ++ ['\x7d'])).length = _
      simp
      omega
    have := nodesMembers_le kvs ihkv
    omega

/-- Round trip of the JSON encoding: parsing the rendered text of a value recovers the
value. -/
theorem jsonParse_render (v : JVal) : jsonParse (JVal.render v) = some v := by
  unfold jsonParse
  have hd : (JVal.render v).data = renderV v := rfl
  rw [hd]
  have hp := parseV_renderV v ((renderV v).length + 1) []
    (by have := nodesV_le v; omega) trivial
  rw [List.append_nil] at hp
  rw [hp]
  rfl

theorem render_str_head (s : String) :
    (JVal.render (.str s)).data = '"' :: (escapeStr s.data ++ ['"']) := rfl

theorem render_arr_head (xs : List JVal) :
    (JVal.render (.arr xs)).data = '[' :: (renderElems xs ++ [']']) := rfl

/-- C3: round-trip of the polymorphic message field.  A msg value encoded as a JSON
string decodes to the string variant carrying exactly that string, and a msg value
encoded as a JSON array decodes to the list variant carrying exactly that array; neither
variant is coerced into the other. -/
theorem c3_msg_variant_roundtrip :
    (∀ s : String, msgTypeUnmarshalJSON (JVal.render (.str s)) = some (.ok ⟨s, [], true⟩))
    ∧ (∀ xs : List JVal,
        msgTypeUnmarshalJSON (JVal.render (.arr xs)) = some (.ok ⟨"", xs, false⟩)) := by
  constructor
  · intro s
    unfold msgTypeUnmarshalJSON
    rw [render_str_head, jsonParse_render]
    simp
  · intro xs
    unfold msgTypeUnmarshalJSON
    rw [render_arr_head, jsonParse_render]
    simp

/-- C9 counterexample: on the empty byte slice, `MsgType.UnmarshalJSON` evaluates
`data[0]`, an index out of range, i.e. it panics (result `none` in the model) instead of
returning a decode error, so the decoder is not total. -/
theorem c9_counterexample : msgTypeUnmarshalJSON "" = none := rfl

/-- C9 amended: for every non-empty input, `MsgType.UnmarshalJSON` does not panic and
either returns a decoded variant (the string variant exactly when the first byte is a
double quote) or returns a decode error; on the empty byte slice it panics. -/
theorem c9_amended_total_on_nonempty (data : String) (h : data ≠ "") :
    (msgTypeUnmarshalJSON data).isSome = true ∧
    ∀ m : MsgType, msgTypeUnmarshalJSON data = some (.ok m) →
      (m.IsString = true ↔ data.data.head? = some '"') := by
  cases hd : data.data with
  | nil => exact absurd (String.ext hd) h
  | cons c cs =>
    unfold msgTypeUnmarshalJSON
    rw [hd]
    constructor
    · rfl
    · intro m hm
      simp only [Option.some.injEq] at hm
      by_cases hc : c = '"'
      · subst hc
        rw [if_pos rfl] at hm
        constructor
        · intro _; rfl
        · intro _
          revert hm
          cases jsonParse data with
          | none => intro hm; cases hm
          | some v =>
            cases v <;> intro hm <;> first
              | (injection hm with hm2; subst hm2; rfl)
              | cases hm
      · rw [if_neg hc] at hm
        have hfalse : m.IsString = false := by
          revert hm
          cases jsonParse data with
          | none => intro hm; cases hm
          | some v =>
            cases v <;> intro hm <;> first
              | (injection hm with hm2; subst hm2; rfl)
              | cases hm
        constructor
        · intro htrue; rw [htrue] at hfalse; cases hfalse
        · intro hhead
          injection hhead with hhead
          exact absurd hhead hc

/-- C1: for every report whose HostStats all have `failures = 0` and `unreachable = 0`,
`AnalyzeJSON` returns empty rendered output and no failure, regardless of the per-host
failed/unreachable flags anywhere in the plays/tasks/hosts tree. -/
theorem c1_clean_stats_render_nothing (buf : String) (root : Root)
    (hparse : jsonUnmarshalRoot buf = .ok root)
    (hstats : ∀ e ∈ root.Stats, e.2.Failures = 0 ∧ e.2.Unreachable = 0) :
    AnalyzeJSON buf = ("", false, none) := by
  have hfd : failureDetected root = false := by
    unfold failureDetected
    rw [List.any_eq_false]
    intro e he
    have h := hstats e he
    simp [h.1, h.2]
  unfold AnalyzeJSON
  rw [hparse]
  show ((analyzeRoot root).1, (analyzeRoot root).2, none) = ("", false, none)
  unfold analyzeRoot
  rw [hfd]
  rfl

/-- C1 witness: end-to-end scenario A, a report with one clean host stat and no plays. -/
theorem c1_witness :
    (jsonUnmarshalRoot "\x7b\"stats\":\x7b\"h1\":\x7b\"failures\":0,\"unreachable\":0\x7d\x7d\x7d"
        = .ok ⟨[], [("h1", ⟨0, 0⟩)]⟩
      ∧ ∀ e ∈ (Root.mk [] [("h1", ⟨0, 0⟩)]).Stats, e.2.Failures = 0 ∧ e.2.Unreachable = 0)
    ∧ AnalyzeJSON "\x7b\"stats\":\x7b\"h1\":\x7b\"failures\":0,\"unreachable\":0\x7d\x7d\x7d"
        = ("", false, none) := by
  have h1 : jsonUnmarshalRoot "\x7b\"stats\":\x7b\"h1\":\x7b\"failures\":0,\"unreachable\":0\x7d\x7d\x7d"
      = .ok ⟨[], [("h1", ⟨0, 0⟩)]⟩ := rfl
  have h2 : ∀ e ∈ (Root.mk [] [("h1", ⟨0, 0⟩)]).Stats,
      e.2.Failures = 0 ∧ e.2.Unreachable = 0 := by
    intro e he
    simp only [List.mem_singleton] at he
    subst he
    exact ⟨rfl, rfl⟩
  exact ⟨⟨h1, h2⟩, c1_clean_stats_render_nothing _ _ h1 h2⟩

/-- C10: whenever `AnalyzeJSON` reports `hadFailure = false` (including on decode
errors), the rendered detail string is empty; a non-empty rendering only ever comes with
`hadFailure = true`. -/
theorem c10_no_failure_no_output (buf : String)
    (h : (AnalyzeJSON buf).2.1 = false) : (AnalyzeJSON buf).1 = "" := by
  unfold AnalyzeJSON at h ⊢
  cases hp : jsonUnmarshalRoot buf with
  | error e => rfl
  | ok root =>
    rw [hp] at h
    have h2 : (analyzeRoot root).2 = false := h
    show (analyzeRoot root).1 = ""
    unfold analyzeRoot at h2 ⊢
    by_cases hfd : failureDetected root = true
    · rw [if_pos hfd] at h2
      cases h2
    · rw [if_neg hfd]

/-- C10 witness: the empty report has `hadFailure = false` and empty rendering. -/
theorem c10_witness :
    (AnalyzeJSON "\x7b\x7d").2.1 = false ∧ (AnalyzeJSON "\x7b\x7d").1 = "" :=
  ⟨rfl, c10_no_failure_no_output _ rfl⟩

theorem linesText_append (a b : List Line) :
    linesText (a ++ b) = linesText a ++ linesText b := by
  induction a with
  | nil => simp [linesText, String.empty_append]
  | cons l ls ih => simp [linesText, ih, String.append_assoc]

theorem printFailedInfo_linesText (r : Result) (indent : String) :
    printFailedInfo r indent = linesText (infoLines r indent) := by
  unfold printFailedInfo infoLines
  split_ifs <;>
    simp [linesText, linesText_append, Line.text, String.empty_append,
      String.append_empty, String.append_assoc]

theorem resultsFold_linesText (rs : List Result) (acc : String) :
    rs.foldl (fun acc r => if r.Failed = true then acc ++ printFailedInfo r "        " else acc) acc
      = acc ++ linesText ((rs.filter fun r => r.Failed = true).flatMap
          fun r => infoLines r "        ") := by
  induction rs generalizing acc with
  | nil => simp [linesText, String.append_empty]
  | cons r rest ih =>
    by_cases hf : r.Failed = true
    · rw [List.foldl_cons, if_pos hf, ih]
      have hfc : List.filter (fun r => decide (r.Failed = true)) (r :: rest)
          = r :: List.filter (fun r => decide (r.Failed = true)) rest := by
        simp [List.filter_cons, hf]
      rw [hfc, List.flatMap_cons, linesText_append, printFailedInfo_linesText,
        String.append_assoc]
    · rw [List.foldl_cons, if_neg hf, ih]
      have hfc : List.filter (fun r => decide (r.Failed = true)) (r :: rest)
          = List.filter (fun r => decide (r.Failed = true)) rest := by
        simp [List.filter_cons, hf]
      rw [hfc]

theorem hostBlockStr_linesText (hostName : String) (h : Host) :
    hostBlockStr hostName h = linesText (hostLines hostName h) := by
  unfold hostBlockStr hostLines
  rw [resultsFold_linesText _ "", String.empty_append]
  unfold resultsLines
  by_cases he : h.Results.isEmpty
  · rw [if_pos he, if_pos he]
    simp [linesText, linesText_append, Line.text, printFailedInfo_linesText,
      String.append_empty, String.append_assoc]
  · rw [if_neg he, if_neg he]
    by_cases hlen : (linesText ((h.Results.filter fun r => r.Failed = true).flatMap
        fun r => infoLines r "        ")).length > 0
    · rw [if_pos hlen, if_pos hlen]
      simp [linesText, linesText_append, Line.text, printFailedInfo_linesText,
        String.append_assoc]
    · rw [if_neg hlen, if_neg hlen]
      simp [linesText, linesText_append, Line.text, printFailedInfo_linesText,
        String.append_empty, String.append_assoc]

theorem hostsFold_eq (pn tn : String) (hosts : List (String × Host)) :
    ∀ (out : String) (php thp : Bool),
    hosts.foldl (hostStep pn tn) (out, php, thp)
      = (out ++ (if hosts.any (fun e => hostQual e.2) = true ∧ php = false
                  then (Line.play pn).text else "")
             ++ (if hosts.any (fun e => hostQual e.2) = true ∧ thp = false
                  then (Line.task tn).text else "")
             ++ linesText ((hosts.filter fun e => hostQual e.2).flatMap
                  fun e => hostLines e.1 e.2),
         php || hosts.any fun e => hostQual e.2,
         thp || hosts.any fun e => hostQual e.2) := by
  induction hosts with
  | nil =>
    intro out php thp
    simp [linesText, String.append_empty]
  | cons e t ih =>
    intro out php thp
    rw [List.foldl_cons]
    by_cases hqe : hostQual e.2 = true
    · have hstep : hostStep pn tn (out, php, thp) e
          = (out ++ (if php = false then (Line.play pn).text else "")
                 ++ (if thp = false then (Line.task tn).text else "")
                 ++ hostBlockStr e.1 e.2, true, true) := by
        unfold hostStep
        rw [if_pos (show (e.2.toResult.Failed || e.2.Unreachable) = true from hqe)]
        cases php <;> cases thp <;>
          simp [Line.text, String.append_assoc, String.append_empty] <;>
          (try rfl)
      rw [hstep, ih]
      have hany : (e :: t).any (fun e => hostQual e.2) = true := by
        simp [List.any_cons, hqe]
      have hfc : (e :: t).filter (fun e => hostQual e.2)
          = e :: t.filter (fun e => hostQual e.2) := by
        simp [List.filter_cons, hqe]
      rw [hany, hfc]
      simp [List.flatMap_cons, linesText_append, hostBlockStr_linesText,
        String.append_assoc, String.append_empty]
    · have hqe' : hostQual e.2 = false := by
        rw [Bool.eq_false_iff]; exact hqe
      have hstep : hostStep pn tn (out, php, thp) e = (out, php, thp) := by
        unfold hostStep
        rw [if_neg (show ¬((e.2.toResult.Failed || e.2.Unreachable) = true) from hqe)]
      rw [hstep, ih]
      have hany : (e :: t).any (fun e => hostQual e.2) = t.any (fun e => hostQual e.2) := by
        simp [List.any_cons, hqe']
      have hfc : (e :: t).filter (fun e => hostQual e.2) = t.filter (fun e => hostQual e.2) := by
        simp [List.filter_cons, hqe']
      rw [hany, hfc]

theorem tasksFold_eq (pn : String) (tasks : List Task) :
    ∀ (out : String) (php : Bool),
    tasks.foldl (taskStep pn) (out, php)
      = (out ++ (if tasks.any taskQual = true ∧ php = false then (Line.play pn).text else "")
             ++ linesText (tasks.flatMap taskLines),
         php || tasks.any taskQual) := by
  induction tasks with
  | nil =>
    intro out php
    simp [linesText, String.append_empty]
  | cons t ts ih =>
    intro out php
    rw [List.foldl_cons]
    have hts : taskStep pn (out, php) t
        = (out ++ (if taskQual t = true ∧ php = false then (Line.play pn).text else "")
               ++ linesText (taskLines t),
           php || taskQual t) := by
      unfold taskStep
      rw [hostsFold_eq]
      by_cases hq : taskQual t = true
      · have hq2 : t.Hosts.any (fun e => hostQual e.2) = true := hq
        rw [hq2]
        simp only [taskLines, hq, if_true, ite_true]
        simp [linesText, linesText_append, Line.text, String.append_assoc, hq]
      · have hq2 : t.Hosts.any (fun e => hostQual e.2) = false := by
          rw [Bool.eq_false_iff]; exact hq
        have hfilter : (t.Hosts.filter fun e => hostQual e.2) = [] := by
          rw [List.filter_eq_nil_iff]
          intro a ha
          exact List.any_eq_false.mp hq2 a ha
        rw [hq2]
        simp [taskLines, hq, hfilter, linesText, String.append_empty]
    rw [hts, ih]
    by_cases hq : taskQual t = true
    · have hany : (t :: ts).any taskQual = true := by simp [List.any_cons, hq]
      rw [hany, hq]
      simp [List.flatMap_cons, linesText_append, String.append_assoc,
        String.append_empty, Bool.or_true, Bool.true_or]
    · have hq' : taskQual t = false := by rw [Bool.eq_false_iff]; exact hq
      have hany : (t :: ts).any taskQual = ts.any taskQual := by
        simp [List.any_cons, hq']
      rw [hany, hq']
      have htl : taskLines t = [] := by simp [taskLines, hq]
      simp [htl, List.flatMap_cons, linesText_append, linesText,
        String.append_empty, Bool.or_false]

theorem playsFold_eq (plays : List Play) :
    ∀ out : String, plays.foldl playStep out = out ++ linesText (plays.flatMap playLines) := by
  induction plays with
  | nil =>
    intro out
    simp [linesText, String.append_empty]
  | cons p ps ih =>
    intro out
    rw [List.foldl_cons]
    have hps : playStep out p = out ++ linesText (playLines p) := by
      unfold playStep
      rw [tasksFold_eq]
      by_cases hq : playQual p = true
      · have hq2 : p.Tasks.any taskQual = true := hq
        rw [hq2]
        simp [playLines, hq, linesText, linesText_append, Line.text, String.append_assoc]
      · have hq2 : p.Tasks.any taskQual = false := by
          rw [Bool.eq_false_iff]; exact hq
        have hflat : p.Tasks.flatMap taskLines = [] := by
          rw [List.bind_eq_nil]
          intro t ht
          have := List.any_eq_false.mp hq2 t ht
          simp [taskLines, this]
        rw [hq2]
        simp [playLines, hq, hflat, linesText, String.append_empty]
    rw [hps, ih, List.flatMap_cons, linesText_append, String.append_assoc]

/-- Bridging lemma: once a failure is detected, the rendered output is exactly the
concatenated text of the structured line decomposition. -/
theorem analyzeRoot_lines (root : Root) (h : failureDetected root = true) :
    analyzeRoot root = (linesText (analyzeLines root), true) := by
  unfold analyzeRoot
  rw [if_pos h, playsFold_eq, String.empty_append]
  rfl

theorem mem_ite_singleton_info {y : Line} {c : Prop} [Decidable c] {t : String}
    (hy : y ∈ if c then [Line.info t] else []) : ∃ u, y = Line.info u := by
  split_ifs at hy
  · simp at hy
    exact ⟨t, hy⟩
  · cases hy

theorem infoLines_kind (r : Result) (ind : String) :
    ∀ y ∈ infoLines r ind, y.kind = 3 := by
  intro y hy
  unfold infoLines at hy
  simp only [List.mem_append] at hy
  rcases hy with ((hy | hy) | hy) | hy <;>
    (obtain ⟨u, hu⟩ := mem_ite_singleton_info hy; subst hu; rfl)

theorem resultsLines_kind (h : Host) :
    ∀ y ∈ resultsLines h, y.kind = 3 ∨ y.kind = 4 := by
  intro y hy
  have hy2 : y ∈ (if h.Results.isEmpty then ([] : List Line) else
      (if (linesText ((h.Results.filter fun r => r.Failed = true).flatMap
          fun r => infoLines r "        ")).length > 0
        then Line.resultsHeader :: ((h.Results.filter fun r => r.Failed = true).flatMap
          fun r => infoLines r "        ")
        else [])) := hy
  split_ifs at hy2
  · cases hy2
  · rcases List.mem_cons.mp hy2 with hy2 | hy2
    · subst hy2; right; rfl
    · rw [List.mem_flatMap] at hy2
      obtain ⟨r, _, hr⟩ := hy2
      exact Or.inl (infoLines_kind r _ y hr)
  · cases hy2

theorem hostLines_kind (hn : String) (h : Host) :
    ∀ y ∈ hostLines hn h, y.kind = 2 ∨ y.kind = 3 ∨ y.kind = 4 := by
  intro y hy
  unfold hostLines at hy
  rcases List.mem_cons.mp hy with hy | hy
  · subst hy; left; rfl
  · rw [List.mem_append] at hy
    rcases hy with hy | hy
    · exact Or.inr (Or.inl (infoLines_kind _ _ y hy))
    · rcases resultsLines_kind h y hy with h3 | h4
      · exact Or.inr (Or.inl h3)
      · exact Or.inr (Or.inr h4)

theorem taskLines_kind (t : Task) :
    ∀ y ∈ taskLines t, y.kind = 1 ∨ y.kind = 2 ∨ y.kind = 3 ∨ y.kind = 4 := by
  intro y hy
  unfold taskLines at hy
  split_ifs at hy
  · rcases List.mem_cons.mp hy with hy | hy
    · subst hy; left; rfl
    · rw [List.mem_flatMap] at hy
      obtain ⟨e, _, he⟩ := hy
      exact Or.inr (hostLines_kind e.1 e.2 y he)
  · cases hy

theorem count_host_hostLines (hn m : String) (h : Host) :
    (hostLines hn h).count (.host m) = if hn = m then 1 else 0 := by
  unfold hostLines
  rw [List.count_cons]
  have h0 : (infoLines h.toResult "      " ++ resultsLines h).count (.host m) = 0 := by
    rw [List.count_eq_zero]
    intro hmem
    rw [List.mem_append] at hmem
    rcases hmem with hmem | hmem
    · have := infoLines_kind _ _ _ hmem; simp [Line.kind] at this
    · rcases resultsLines_kind h _ hmem with hk | hk <;> simp [Line.kind] at hk
  rw [h0]
  by_cases he : hn = m
  · subst he; simp
  · simp [he, Line.host.injEq]

theorem count_host_flatMap_zero (hosts : List (String × Host)) (hn : String)
    (h : ∀ x ∈ hosts, x.1 ≠ hn) :
    ((hosts.filter fun e => hostQual e.2).flatMap fun e => hostLines e.1 e.2).count
      (.host hn) = 0 := by
  induction hosts with
  | nil => rfl
  | cons x t ih =>
    rw [List.filter_cons]
    by_cases hq : hostQual x.2 = true
    · rw [if_pos (by simp [hq]), List.flatMap_cons, List.count_append,
        count_host_hostLines, if_neg (h x (List.mem_cons_self x t)),
        ih (fun y hy => h y (List.mem_cons_of_mem x hy))]
    · rw [if_neg (by simp [hq]), ih (fun y hy => h y (List.mem_cons_of_mem x hy))]

theorem count_host_flatMap_one (hosts : List (String × Host)) (e : String × Host)
    (hnodup : (hosts.map Prod.fst).Nodup) (hmem : e ∈ hosts) (hq : hostQual e.2 = true) :
    ((hosts.filter fun x => hostQual x.2).flatMap fun x => hostLines x.1 x.2).count
      (.host e.1) = 1 := by
  induction hosts with
  | nil => cases hmem
  | cons x t ih =>
    rw [List.map_cons, List.nodup_cons] at hnodup
    rcases List.mem_cons.mp hmem with he | he
    · subst he
      rw [List.filter_cons, if_pos (by simp [hq]), List.flatMap_cons, List.count_append,
        count_host_hostLines, if_pos rfl,
        count_host_flatMap_zero t e.1
          (fun y hy hy1 => hnodup.1 (hy1 ▸ List.mem_map_of_mem Prod.fst hy))]
    · have hne : x.1 ≠ e.1 := by
        intro hx
        exact hnodup.1 (hx ▸ List.mem_map_of_mem Prod.fst he)
      rw [List.filter_cons]
      by_cases hqx : hostQual x.2 = true
      · rw [if_pos (by simp [hqx]), List.flatMap_cons, List.count_append,
          count_host_hostLines, if_neg hne, ih hnodup.2 he]
      · rw [if_neg (by simp [hqx]), ih hnodup.2 he]

theorem count_play_playLines (p : Play) (h : playQual p = true) :
    (playLines p).count (.play p.PlayName) = 1 := by
  unfold playLines
  rw [if_pos h, List.count_cons]
  have h0 : (p.Tasks.flatMap taskLines).count (.play p.PlayName) = 0 := by
    rw [List.count_eq_zero]
    intro hmem
    rw [List.mem_flatMap] at hmem
    obtain ⟨t, _, hx⟩ := hmem
    rcases taskLines_kind t _ hx with hk | hk | hk | hk <;> simp [Line.kind] at hk
  rw [h0]
  simp

theorem count_task_taskLines (t : Task) :
    (taskLines t).count (.task t.TaskName) = if taskQual t then 1 else 0 := by
  unfold taskLines
  by_cases hq : taskQual t = true
  · rw [if_pos hq, if_pos hq, List.count_cons]
    have h0 : ((t.Hosts.filter fun e => hostQual e.2).flatMap
        fun e => hostLines e.1 e.2).count (.task t.TaskName) = 0 := by
      rw [List.count_eq_zero]
      intro hmem
      rw [List.mem_flatMap] at hmem
      obtain ⟨x, _, hx⟩ := hmem
      rcases hostLines_kind x.1 x.2 _ hx with hk | hk | hk <;> simp [Line.kind] at hk
    rw [h0]
    simp
  · rw [if_neg hq, if_neg hq]
    rfl

theorem count_host_taskLines (t : Task) (e : String × Host)
    (hnodup : (t.Hosts.map Prod.fst).Nodup) (hmem : e ∈ t.Hosts)
    (hq : hostQual e.2 = true) :
    (taskLines t).count (.host e.1) = 1 := by
  have htq : taskQual t = true := by
    unfold taskQual
    rw [List.any_eq_true]
    exact ⟨e, hmem, hq⟩
  unfold taskLines
  rw [if_pos htq, List.count_cons, count_host_flatMap_one t.Hosts e hnodup hmem hq]
  simp

/-- C2: in every report with a detected failure, the rendered output decomposes into
structured lines in which each qualifying host entry of each task contributes exactly
one HOST header, each task with a qualifying host contributes exactly one TASK header
(none otherwise), each play with a qualifying host contributes exactly one PLAY header,
and a play with no qualifying hosts in any task emits no lines at all.  Host keys of a
Go map are unique, hence the Nodup hypothesis. -/
theorem c2_failure_render_once_per_scope (buf : String) (root : Root)
    (hparse : jsonUnmarshalRoot buf = .ok root)
    (hfd : failureDetected root = true)
    (hnodup : ∀ p ∈ root.Plays, ∀ t ∈ p.Tasks, (t.Hosts.map Prod.fst).Nodup) :
    AnalyzeJSON buf = (linesText (analyzeLines root), true, none)
    ∧ (∀ p ∈ root.Plays, playQual p = false → playLines p = [])
    ∧ (∀ p ∈ root.Plays, playQual p = true → (playLines p).count (.play p.PlayName) = 1)
    ∧ (∀ p ∈ root.Plays, ∀ t ∈ p.Tasks,
        (taskLines t).count (.task t.TaskName) = if taskQual t then 1 else 0)
    ∧ (∀ p ∈ root.Plays, ∀ t ∈ p.Tasks, ∀ e ∈ t.Hosts, hostQual e.2 = true →
        (taskLines t).count (.host e.1) = 1) := by
  refine ⟨?_, ?_, ?_, ?_, ?_⟩
  · unfold AnalyzeJSON
    rw [hparse]
    show ((analyzeRoot root).1, (analyzeRoot root).2, none) = _
    rw [analyzeRoot_lines root hfd]
  · intro p _ hq
    simp [playLines, hq]
  · intro p _ hq
    exact count_play_playLines p hq
  · intro p _ t _
    exact count_task_taskLines t
  · intro p hp t ht e he hq
    exact count_host_taskLines t e (hnodup p hp t ht) he hq

set_option maxRecDepth 100000 in
/-- C2 witness: the structural rendering properties instantiated on scenario B. -/
theorem c2_witness :
    (jsonUnmarshalRoot scenarioB = .ok scenarioBRoot
      ∧ failureDetected scenarioBRoot = true
      ∧ ∀ p ∈ scenarioBRoot.Plays, ∀ t ∈ p.Tasks, (t.Hosts.map Prod.fst).Nodup)
    ∧ (AnalyzeJSON scenarioB = (linesText (analyzeLines scenarioBRoot), true, none)
      ∧ (∀ p ∈ scenarioBRoot.Plays, playQual p = false → playLines p = [])
      ∧ (∀ p ∈ scenarioBRoot.Plays, playQual p = true →
          (playLines p).count (.play p.PlayName) = 1)
      ∧ (∀ p ∈ scenarioBRoot.Plays, ∀ t ∈ p.Tasks,
          (taskLines t).count (.task t.TaskName) = if taskQual t then 1 else 0)
      ∧ (∀ p ∈ scenarioBRoot.Plays, ∀ t ∈ p.Tasks, ∀ e ∈ t.Hosts, hostQual e.2 = true →
          (taskLines t).count (.host e.1) = 1)) := by
  have h1 : jsonUnmarshalRoot scenarioB = .ok scenarioBRoot := rfl
  have h2 : failureDetected scenarioBRoot = true := rfl
  have h3 : ∀ p ∈ scenarioBRoot.Plays, ∀ t ∈ p.Tasks, (t.Hosts.map Prod.fst).Nodup := by
    intro p hp t ht
    simp only [scenarioBRoot, List.mem_singleton] at hp
    subst hp
    simp only [List.mem_singleton] at ht
    subst ht
    simp
  exact ⟨⟨h1, h2, h3⟩, c2_failure_render_once_per_scope scenarioB scenarioBRoot h1 h2 h3⟩

theorem isPrefixOf_append_self : ∀ (n r : List Char), n.isPrefixOf (n ++ r) = true := by
  intro n
  induction n with
  | nil =>
    intro r
    rw [List.nil_append]
    cases r <;> rfl
  | cons c t ih =>
    intro r
    rw [List.cons_append]
    show (c == c && t.isPrefixOf (t ++ r)) = true
    rw [ih, beq_self_eq_true]
    rfl

theorem seqMem_self_append (n r : List Char) : seqMem n (n ++ r) = true := by
  cases n with
  | nil =>
    cases hr : ([] ++ r : List Char) with
    | nil => rfl
    | cons c t =>
      show ([] : List Char).isPrefixOf (c :: t) || seqMem [] t = true
      cases t <;> rfl
  | cons c t =>
    show seqMem (c :: t) (c :: (t ++ r)) = true
    have hp := isPrefixOf_append_self (c :: t) r
    rw [List.cons_append] at hp
    unfold seqMem
    rw [hp]
    rfl

theorem jpWalk_strict_of_tolerant_empty (name : String) :
    ∀ (fields : List String) (blob : JVal),
    jpWalk name true fields blob = .ok [] →
    ∃ f, jpWalk name false fields blob
      = .error (name ++ ": " ++ f ++ " is not found") := by
  intro fields
  induction fields with
  | nil =>
    intro blob h
    cases h
  | cons f fs ih =>
    intro blob h
    cases blob with
    | obj kvs =>
      simp only [jpWalk] at h ⊢
      cases hl : lookupLast f kvs with
      | some v' =>
        rw [hl] at h
        exact ih v' h
      | none => exact ⟨f, rfl⟩
    | null => exact ⟨f, rfl⟩
    | bool b => exact ⟨f, rfl⟩
    | num n => exact ⟨f, rfl⟩
    | str s => exact ⟨f, rfl⟩
    | arr xs => exact ⟨f, rfl⟩

/-- C4: with a valid JSON document and a compilable path resolving to zero matches,
`failOnMissingPath = true` yields an error naming the query (its path expression) and
`failOnMissingPath = false` (the tolerant default) yields an empty result string, not
an error.  The engine semantics are modelled from the spec (the k8s jsonpath library is
not part of this repository). -/
theorem c4_missing_path_strictness (data : String) (blob : JVal) (path : String)
    (fields : List String) (jsonOut : Bool)
    (hparse : jsonParse data = some blob)
    (hcompile : jpCompile ("\x7b" ++ path ++ "\x7d") = some fields)
    (hmissing : jpWalk path true fields blob = .ok []) :
    (∃ e, jsonPath data ⟨path, true, jsonOut, ""⟩ = .error e
        ∧ seqMem path.data e.data = true)
    ∧ jsonPath data ⟨path, false, jsonOut, ""⟩ = .ok "" := by
  obtain ⟨f, hf⟩ := jpWalk_strict_of_tolerant_empty path fields blob hmissing
  constructor
  · refine ⟨path ++ ": " ++ f ++ " is not found", ?_, ?_⟩
    · unfold jsonPath
      rw [hparse]
      show (match jpParse ⟨path, !true, jsonOut, []⟩ ("\x7b" ++ path ++ "\x7d") with
            | Except.error e => (Except.error e : Except String String)
            | Except.ok jp2 => jpExecute jp2 blob) = _
      unfold jpParse
      rw [hcompile]
      show jpExecute ⟨path, false, jsonOut, fields⟩ blob = _
      unfold jpExecute
      rw [hf]
    · have hdata : (path ++ ": " ++ f ++ " is not found").data
          = path.data ++ (": " ++ f ++ " is not found").data := by
        simp only [String.data_append, List.append_assoc]
      rw [hdata]
      exact seqMem_self_append _ _
  · unfold jsonPath
    rw [hparse]
    show (match jpParse ⟨path, !false, jsonOut, []⟩ ("\x7b" ++ path ++ "\x7d") with
          | Except.error e => (Except.error e : Except String String)
          | Except.ok jp2 => jpExecute jp2 blob) = _
    unfold jpParse
    rw [hcompile]
    show jpExecute ⟨path, true, jsonOut, fields⟩ blob = _
    unfold jpExecute
    rw [hmissing]
    rfl

/-- C4 witness: the query `.missing` on the empty object document. -/
theorem c4_witness :
    (jsonParse "\x7b\x7d" = some (.obj [])
      ∧ jpCompile ("\x7b" ++ ".missing" ++ "\x7d") = some ["missing"]
      ∧ jpWalk ".missing" true ["missing"] (.obj []) = .ok [])
    ∧ ((∃ e, jsonPath "\x7b\x7d" ⟨".missing", true, false, ""⟩ = .error e
          ∧ seqMem ".missing".data e.data = true)
       ∧ jsonPath "\x7b\x7d" ⟨".missing", false, false, ""⟩ = .ok "") :=
  ⟨⟨rfl, rfl, rfl⟩, c4_missing_path_strictness "\x7b\x7d" (.obj []) ".missing"
    ["missing"] false rfl rfl rfl⟩

/-- C5 counterexample: the aggregate batch error does not identify the failing query by
its (map-key) name.  For the batch holding the single strict query named
"failure_count" with path ".stats.oops" over the empty document, the returned error
wraps the engine error, which carries the path expression, and the name "failure_count"
appears nowhere in it. -/
theorem c5_counterexample :
    QueryPlaybookArtifact "\x7b\x7d" [("failure_count", ⟨".stats.oops", true, false, ""⟩)]
      = .error "failed to query playbook artifact with JSONPath, .stats.oops: stats is not found"
    ∧ seqMem "failure_count".data
        "failed to query playbook artifact with JSONPath, .stats.oops: stats is not found".data
      = false :=
  ⟨rfl, rfl⟩

/-- C5 amended: batch evaluation is fail-fast.  When every query before the offending
one evaluates successfully and the offending query's evaluation fails, the batch
returns the single wrapped error of that query, and the queries after it are never
evaluated (replacing them arbitrarily leaves the result unchanged); no partial-results
success is returned.  The error contains the failing query's path expression (the name
handed to the engine), not its map-key name. -/
theorem c5_failfast_first_error (stdout : String) (pre : List (String × ArtifactQuery))
    (bad : String × ArtifactQuery) (rest rest' : List (String × ArtifactQuery))
    (e : String)
    (hpre : ∀ q ∈ pre, ∃ r, jsonPath stdout q.2 = .ok r)
    (hbad : jsonPath stdout bad.2 = .error e) :
    QueryPlaybookArtifact stdout (pre ++ bad :: rest)
        = .error ("failed to query playbook artifact with JSONPath, " ++ e)
    ∧ QueryPlaybookArtifact stdout (pre ++ bad :: rest)
        = QueryPlaybookArtifact stdout (pre ++ bad :: rest') := by
  induction pre with
  | nil =>
    obtain ⟨bn, bq⟩ := bad
    constructor
    · show (match jsonPath stdout bq with
            | .error err =>
                (Except.error ("failed to query playbook artifact with JSONPath, " ++ err)
                  : Except String (List (String × ArtifactQuery)))
            | .ok result =>
              match QueryPlaybookArtifact stdout rest with
              | .error e2 => .error e2
              | .ok updated => .ok ((bn, ⟨bq.JSONPath, bq.FailOnMissingKey, bq.JsonOutput,
                  result⟩) :: updated)) = _
      rw [hbad]
    · show (match jsonPath stdout bq with
            | .error err =>
                (Except.error ("failed to query playbook artifact with JSONPath, " ++ err)
                  : Except String (List (String × ArtifactQuery)))
            | .ok result =>
              match QueryPlaybookArtifact stdout rest with
              | .error e2 => .error e2
              | .ok updated => .ok ((bn, ⟨bq.JSONPath, bq.FailOnMissingKey, bq.JsonOutput,
                  result⟩) :: updated))
          = (match jsonPath stdout bq with
            | .error err =>
                (Except.error ("failed to query playbook artifact with JSONPath, " ++ err)
                  : Except String (List (String × ArtifactQuery)))
            | .ok result =>
              match QueryPlaybookArtifact stdout rest' with
              | .error e2 => .error e2
              | .ok updated => .ok ((bn, ⟨bq.JSONPath, bq.FailOnMissingKey, bq.JsonOutput,
                  result⟩) :: updated))
      rw [hbad]
  | cons q pre' ih =>
    obtain ⟨qn, qq⟩ := q
    obtain ⟨r, hr⟩ := hpre (qn, qq) (List.mem_cons_self _ _)
    have ih2 := ih (fun x hx => hpre x (List.mem_cons_of_mem _ hx))
    constructor
    · show (match jsonPath stdout qq with
            | .error err =>
                (Except.error ("failed to query playbook artifact with JSONPath, " ++ err)
                  : Except String (List (String × ArtifactQuery)))
            | .ok result =>
              match QueryPlaybookArtifact stdout (pre' ++ bad :: rest) with
              | .error e2 => .error e2
              | .ok updated => .ok ((qn, ⟨qq.JSONPath, qq.FailOnMissingKey, qq.JsonOutput,
                  result⟩) :: updated)) = _
      rw [hr, ih2.1]
    · show (match jsonPath stdout qq with
            | .error err =>
                (Except.error ("failed to query playbook artifact with JSONPath, " ++ err)
                  : Except String (List (String × ArtifactQuery)))
            | .ok result =>
              match QueryPlaybookArtifact stdout (pre' ++ bad :: rest) with
              | .error e2 => .error e2
              | .ok updated => .ok ((qn, ⟨qq.JSONPath, qq.FailOnMissingKey, qq.JsonOutput,
                  result⟩) :: updated))
          = (match jsonPath stdout qq with
            | .error err =>
                (Except.error ("failed to query playbook artifact with JSONPath, " ++ err)
                  : Except String (List (String × ArtifactQuery)))
            | .ok result =>
              match QueryPlaybookArtifact stdout (pre' ++ bad :: rest') with
              | .error e2 => .error e2
              | .ok updated => .ok ((qn, ⟨qq.JSONPath, qq.FailOnMissingKey, qq.JsonOutput,
                  result⟩) :: updated))
      rw [hr, ih2.1, ih2.2.symm, ih2.1]

/-- C5 witness: a batch with one succeeding query followed by a failing one, with two
different continuations. -/
theorem c5_witness :
    ((∀ q ∈ [("good", (⟨".a", false, false, ""⟩ : ArtifactQuery))],
        ∃ r, jsonPath "\x7b\"a\":1\x7d" q.2 = .ok r)
      ∧ jsonPath "\x7b\"a\":1\x7d" (⟨".b", true, false, ""⟩ : ArtifactQuery)
          = .error ".b: b is not found")
    ∧ (QueryPlaybookArtifact "\x7b\"a\":1\x7d"
        ([("good", ⟨".a", false, false, ""⟩)] ++ ("bad", ⟨".b", true, false, ""⟩) :: [])
          = .error ("failed to query playbook artifact with JSONPath, " ++ ".b: b is not found")
      ∧ QueryPlaybookArtifact "\x7b\"a\":1\x7d"
          ([("good", ⟨".a", false, false, ""⟩)] ++ ("bad", ⟨".b", true, false, ""⟩) :: [])
        = QueryPlaybookArtifact "\x7b\"a\":1\x7d"
          ([("good", ⟨".a", false, false, ""⟩)] ++ ("bad", ⟨".b", true, false, ""⟩)
            :: [("never", ⟨"%%%", false, false, ""⟩)])) := by
  have hpre : ∀ q ∈ [("good", (⟨".a", false, false, ""⟩ : ArtifactQuery))],
      ∃ r, jsonPath "\x7b\"a\":1\x7d" q.2 = .ok r := by
    intro q hq
    simp only [List.mem_singleton] at hq
    subst hq
    exact ⟨"1", rfl⟩
  have hbad : jsonPath "\x7b\"a\":1\x7d" (⟨".b", true, false, ""⟩ : ArtifactQuery)
      = .error ".b: b is not found" := rfl
  exact ⟨⟨hpre, hbad⟩, c5_failfast_first_error "\x7b\"a\":1\x7d"
    [("good", ⟨".a", false, false, ""⟩)] ("bad", ⟨".b", true, false, ""⟩) []
    [("never", ⟨"%%%", false, false, ""⟩)] ".b: b is not found" hpre hbad⟩

/-- Decomposition of the built argument vector: fixed deterministic part, the
extra-variable block in iteration order, then the playbook path. -/
theorem create_args_decomposition (cfg : Playbook2Config) :
    (resourcePlaybook2Create cfg).args
      = playbook2FixedArgs cfg ++ (cfg.extraVars.flatMap fun kv => ["-e", extraVarArg kv])
        ++ [cfg.playbook] := by
  unfold resourcePlaybook2Create playbook2FixedArgs
  simp [List.append_assoc]

/-- C7 counterexample: two runs over the same configuration (`c7cfgA` and `c7cfgB`
differ only in the iteration order of the same extra-variables map, which Go's map
iteration does not fix) produce different argument vectors, so map-iteration-order
nondeterminism leaks into the argument order. -/
theorem c7_counterexample :
    c7cfgA.extraVars.Perm c7cfgB.extraVars
    ∧ c7cfgA.playbook = c7cfgB.playbook
    ∧ playbook2FixedArgs c7cfgA = playbook2FixedArgs c7cfgB
    ∧ (resourcePlaybook2Create c7cfgA).args ≠ (resourcePlaybook2Create c7cfgB).args := by
  refine ⟨List.Perm.swap ("beta", ExtraVal.str "2") ("alpha", ExtraVal.str "1") [], rfl, rfl, ?_⟩
  intro h
  have h2 : (resourcePlaybook2Create c7cfgA).args.get? 1 =
      (resourcePlaybook2Create c7cfgB).args.get? 1 := by rw [h]
  cases h2

/-- C7 amended: the argument vector is deterministic in everything except the relative
order of the extra-variable arguments.  For any two configurations identical except for
the iteration order of the extra-variables map, the vectors are the fixed deterministic
part, then the extra-variable block in map order, then the playbook path — so the two
vectors are permutations of each other, and the nondeterminism is confined to the
extra-variable block. -/
theorem c7_amended_deterministic_up_to_extravars (cfg₁ cfg₂ : Playbook2Config)
    (hfix : playbook2FixedArgs cfg₁ = playbook2FixedArgs cfg₂)
    (hpb : cfg₁.playbook = cfg₂.playbook)
    (hperm : cfg₁.extraVars.Perm cfg₂.extraVars) :
    (resourcePlaybook2Create cfg₁).args
        = playbook2FixedArgs cfg₁ ++ (cfg₁.extraVars.flatMap fun kv => ["-e", extraVarArg kv])
          ++ [cfg₁.playbook]
    ∧ (resourcePlaybook2Create cfg₁).args.Perm (resourcePlaybook2Create cfg₂).args := by
  refine ⟨create_args_decomposition cfg₁, ?_⟩
  rw [create_args_decomposition cfg₁, create_args_decomposition cfg₂, ← hfix, ← hpb]
  exact ((hperm.flatMap_right fun kv => ["-e", extraVarArg kv]).append_left
    (playbook2FixedArgs cfg₁)).append (List.Perm.refl [cfg₁.playbook])

/-- C7 amended witness: instantiation at the two counterexample configurations. -/
theorem c7_witness :
    (playbook2FixedArgs c7cfgA = playbook2FixedArgs c7cfgB
      ∧ c7cfgA.playbook = c7cfgB.playbook
      ∧ c7cfgA.extraVars.Perm c7cfgB.extraVars)
    ∧ ((resourcePlaybook2Create c7cfgA).args
        = playbook2FixedArgs c7cfgA
          ++ (c7cfgA.extraVars.flatMap fun kv => ["-e", extraVarArg kv]) ++ [c7cfgA.playbook]
      ∧ (resourcePlaybook2Create c7cfgA).args.Perm (resourcePlaybook2Create c7cfgB).args) := by
  have hperm : c7cfgA.extraVars.Perm c7cfgB.extraVars :=
    List.Perm.swap ("beta", ExtraVal.str "2") ("alpha", ExtraVal.str "1") []
  exact ⟨⟨rfl, rfl, hperm⟩,
    c7_amended_deterministic_up_to_extravars c7cfgA c7cfgB rfl rfl hperm⟩

/-- C6 counterexample: with a vault file list and no configured vault password file,
the create call appends the configuration-error diagnostic, but the invocation still
proceeds — `resourcePlaybook2Update` is called unconditionally and launches the
process (`invoked = true`), contradicting "the invocation does not proceed". -/
theorem c6_counterexample :
    (resourcePlaybook2Create c6cfg).diags = [vaultErrMsg]
    ∧ (resourcePlaybook2Create c6cfg).invoked = true :=
  ⟨rfl, rfl⟩

/-- C6 amended: whenever a vault file list is supplied and no vault password file is
configured, the missing-password configuration error is surfaced as an error
diagnostic while the arguments are built, before the external process is launched, but
the invocation nevertheless still proceeds. -/
theorem c6_amended_vault_error_surfaced (cfg : Playbook2Config)
    (hv : cfg.vaultFiles ≠ []) (hp : cfg.vaultPasswordFile = "") :
    vaultErrMsg ∈ (resourcePlaybook2Create cfg).diags
    ∧ (resourcePlaybook2Create cfg).invoked = true := by
  constructor
  · have hlen : cfg.vaultFiles.length ≠ 0 := by
      cases hvf : cfg.vaultFiles with
      | nil => exact absurd hvf hv
      | cons a t => simp [hvf]
    show vaultErrMsg ∈
      (if cfg.vaultFiles.length ≠ 0 then
        let vargs := (cfg.vaultFiles.flatMap fun f => ["-e", "@" ++ f]) ++ ["--vault-id"]
        let vaultIDArg := if cfg.vaultID ≠ "" then cfg.vaultID else ""
        if cfg.vaultPasswordFile ≠ "" then
          (vargs ++ [vaultIDArg ++ "@" ++ cfg.vaultPasswordFile], ([] : List String))
        else
          (vargs ++ [vaultIDArg], [vaultErrMsg])
       else ([], [])).2
    rw [if_pos hlen, if_neg (by rw [hp]; exact fun h => h rfl)]
    exact List.mem_singleton.mpr rfl
  · rfl

/-- C6 amended witness: instantiation at the counterexample configuration. -/
theorem c6_witness :
    (c6cfg.vaultFiles ≠ [] ∧ c6cfg.vaultPasswordFile = "")
    ∧ (vaultErrMsg ∈ (resourcePlaybook2Create c6cfg).diags
      ∧ (resourcePlaybook2Create c6cfg).invoked = true) := by
  have hv : c6cfg.vaultFiles ≠ [] := by
    intro h
    cases h
  exact ⟨⟨hv, rfl⟩, c6_amended_vault_error_surfaced c6cfg hv rfl⟩

/-- C8: a stdout buffer that is not a valid JSON encoding of the report structure makes
`AnalyzeJSON` return a decode error with no rendered output and `hadFailure = false` —
distinct from a successfully parsed report of a failed run — and the failed-run caller
path reports that decode error with the raw stdout attached, while the process-failure
diagnostic carries empty details instead of a rendered failure block. -/
theorem c8_decode_error_reported (stdout e : String)
    (hbad : jsonUnmarshalRoot stdout = .error e) :
    ∀ (errText stderr : String) (queries : List (String × ArtifactQuery)),
    AnalyzeJSON stdout = ("", false, some e)
    ∧ (⟨.error, "Error analyzing result JSON: " ++ e, "STDOUT:\n" ++ stdout⟩ : Diag)
        ∈ executeDiags true errText stdout stderr queries
    ∧ (⟨.error, "Ansible playbook command finished with an error: " ++ errText, ""⟩ : Diag)
        ∈ executeDiags true errText stdout stderr queries := by
  intro errText stderr queries
  have ha : AnalyzeJSON stdout = ("", false, some e) := by
    unfold AnalyzeJSON
    rw [hbad]
  refine ⟨ha, ?_, ?_⟩
  · show _ ∈ executeDiags true errText stdout stderr queries
    unfold executeDiags
    rw [if_pos rfl, ha]
    rw [List.mem_append]
    right
    exact List.mem_cons_self _ _
  · show _ ∈ executeDiags true errText stdout stderr queries
    unfold executeDiags
    rw [if_pos rfl, ha]
    rw [List.mem_append]
    right
    exact List.mem_cons_of_mem _ (List.mem_cons_self _ _)

/-- C9 amended witness: instantiation on the non-empty array input. -/
theorem c9_witness :
    ("[1]" : String) ≠ ""
    ∧ ((msgTypeUnmarshalJSON "[1]").isSome = true
      ∧ ∀ m : MsgType, msgTypeUnmarshalJSON "[1]" = some (.ok m) →
          (m.IsString = true ↔ ("[1]" : String).data.head? = some '"')) :=
  ⟨by decide, c9_amended_total_on_nonempty "[1]" (by decide)⟩

/-- C8 witness: end-to-end scenario C, a non-JSON stdout buffer on a failed run. -/
theorem c8_witness :
    jsonUnmarshalRoot "oops not json" = .error "invalid character in JSON input"
    ∧ (AnalyzeJSON "oops not json"
        = ("", false, some "invalid character in JSON input")
      ∧ (⟨.error, "Error analyzing result JSON: " ++ "invalid character in JSON input",
           "STDOUT:\n" ++ "oops not json"⟩ : Diag)
          ∈ executeDiags true "exit status 2" "oops not json" "" []
      ∧ (⟨.error, "Ansible playbook command finished with an error: " ++ "exit status 2",
           ""⟩ : Diag)
          ∈ executeDiags true "exit status 2" "oops not json" "" []) :=
  ⟨rfl, c8_decode_error_reported "oops not json" "invalid character in JSON input" rfl
    "exit status 2" "" []⟩

end TPA
